import Mathlib

/-!
# go-xlsb — shallow embedding and verification

This file embeds the core of the `go-xlsb` library (a pure-Go reader for
Microsoft Excel Binary Workbook files) in Lean 4 and proves properties of the
embedded definitions.

Modelling conventions:

* A byte stream (`io.ReadSeeker` over an in-memory buffer, `[]byte`) is a
  `List Nat` together with a cursor position.  Every byte read is normalised
  with `% 256`, reflecting Go's `byte` (`uint8`) type.
* Go's fixed-width unsigned integers are `Nat` values; `uint32` arithmetic
  that could overflow is annotated at the definition.  Go's `int32` is an
  `Int` in the range `[-2^31, 2^31)` obtained via `int32OfUint32`.
* Fallible Go functions returning `(value, error)` become `Except`/`Option`.
* IEEE-754 `float64` values produced by the byte-level decoders are kept
  symbolic (`PackedBase`, bit patterns as `Nat`): the decoders under
  verification only ever construct them from integer data, and the claims
  under study are about which construction is performed, not about float
  arithmetic.  The number-format renderer is embedded over `ℚ` (exact
  rational arithmetic) where the source uses `float64`; the concrete values
  exercised by the theorems are dyadic rationals represented exactly by
  `float64`, so the traces coincide.
-/

namespace Biff12

/-- BIFF12 record-type constants (from `biff12/records.go`). -/
def Row : Nat := 0x0000

def Blank : Nat := 0x0001

def Num : Nat := 0x0002

def BoolErr : Nat := 0x0003

def BoolRec : Nat := 0x0004

def Float : Nat := 0x0005

def String : Nat := 0x0007

def FormulaString : Nat := 0x0008

def FormulaFloat : Nat := 0x0009

def FormulaBool : Nat := 0x000A

def FormulaBoolErr : Nat := 0x000B

def Col : Nat := 0x003C

def SheetData : Nat := 0x0191

def SheetDataEnd : Nat := 0x0192

def Dimension : Nat := 0x0194

def Hyperlink : Nat := 0x03EE

def MergeCell : Nat := 0x01B0

end Biff12

namespace Record

/-- Error outcomes of `Reader.Next` (from `record/reader.go`): `eof` models
`io.EOF` (the designated non-error end-of-stream result) and `corrupt` models
every non-EOF error (`fmt.Errorf` wrapped corruption errors). -/
inductive NextErr where
  | eof
  | corrupt (msg : String)
deriving DecidableEq, Repr

/-- One byte read from the buffer at `pos`; bytes are normalised `% 256`
(reflecting Go's `byte` type).  `none` models `io.ReadFull` failing with
`io.EOF` on a 1-byte buffer. -/
def byteAt (data : List Nat) (pos : Nat) : Option Nat :=
  (data.get? pos).map (fun b => b % 256)

/-- Loop body of `Reader.readID` (from `record/reader.go`): up to 4 byte-shift
accumulated bytes, continuation bit = MSB.  `rem` is the number of loop
iterations left (`for i := range 4`); the `rem = 0` case mirrors the
`panic("record: readID: unreachable")` after the loop, which is unreachable
when starting from `rem = 4`.  Accumulation cannot overflow `uint32`
(at most 4 bytes `< 256` at byte positions 0–3), so plain `Nat` addition is
faithful. -/
def readIDGo (data : List Nat) : Nat → Nat → Nat → Nat → Except NextErr (Nat × Nat)
  | _, _, _, 0 => .error (.corrupt "record: readID: unreachable")
  | pos, i, v, rem + 1 =>
    match byteAt data pos with
    | none => .error .eof
    | some b =>
      let v2 := v + (b <<< (8 * i))
      if b &&& 0x80 = 0 then .ok (v2, pos + 1)
      else if i = 3 then
        .error (.corrupt "record: ID continuation bit set on 4th byte (stream corrupt)")
      else readIDGo data (pos + 1) (i + 1) v2 rem

/-- `Reader.readID`: variable-length record-type ID, 1–4 bytes. -/
def readID (data : List Nat) (pos : Nat) : Except NextErr (Nat × Nat) :=
  readIDGo data pos 0 0 4

/-- Loop body of `Reader.readLen` (from `record/reader.go`): up to 4 bytes of
7-bit little-endian chunks (LEB-128).  Accumulation cannot overflow `uint32`
(at most `0x7F * (1 + 2^7 + 2^14 + 2^21) < 2^28`). -/
def readLenGo (data : List Nat) : Nat → Nat → Nat → Nat → Except NextErr (Nat × Nat)
  | _, _, _, 0 => .error (.corrupt "record: readLen: unreachable")
  | pos, i, v, rem + 1 =>
    match byteAt data pos with
    | none => .error .eof
    | some b =>
      let v2 := v + ((b &&& 0x7F) <<< (7 * i))
      if b &&& 0x80 = 0 then .ok (v2, pos + 1)
      else if i = 3 then
        .error (.corrupt "record: length continuation bit set on 4th byte (stream corrupt)")
      else readLenGo data (pos + 1) (i + 1) v2 rem

/-- `Reader.readLen`: variable-length record length, 1–4 bytes. -/
def readLen (data : List Nat) (pos : Nat) : Except NextErr (Nat × Nat) :=
  readLenGo data pos 0 0 4

/-- `maxRecordLen` guard from `Reader.Next` (10 MiB). -/
def maxRecordLen : Nat := 10 * 1024 * 1024

/-- `io.ReadFull` of `n` payload bytes at `pos`; `none` models any short read
(`io.EOF` / `io.ErrUnexpectedEOF`), which `Next` wraps into a non-EOF error. -/
def readPayload (data : List Nat) (pos n : Nat) : Option (List Nat × Nat) :=
  if pos + n ≤ data.length then
    some (((data.drop pos).take n).map (fun b => b % 256), pos + n)
  else none

/-- `Reader.Next` (from `record/reader.go`): returns `(recID, payload, newPos)`.
An `io.EOF`/`io.ErrUnexpectedEOF` from `readID` is returned as the clean
end-of-stream `eof`; every failure after the ID (length read, oversized
length, payload read) is a `corrupt` error. -/
def next (data : List Nat) (pos : Nat) : Except NextErr (Nat × List Nat × Nat) :=
  match readID data pos with
  | .error .eof => .error .eof
  | .error (.corrupt m) => .error (.corrupt ("record: reading ID: " ++ m))
  | .ok (recID, p1) =>
    match readLen data p1 with
    | .error _ => .error (.corrupt "record: reading length after ID (stream truncated or corrupt)")
    | .ok (recLen, p2) =>
      if maxRecordLen < recLen then
        .error (.corrupt "record: payload length exceeds 10 MiB limit (stream corrupt)")
      else if recLen = 0 then .ok (recID, [], p2)
      else
        match readPayload data p2 recLen with
        | none => .error (.corrupt "record: reading payload bytes (stream truncated)")
        | some (payload, p3) => .ok (recID, payload, p3)

end Record


namespace Record

set_option maxRecDepth 4096 in
/-- For bytes, the continuation-bit test `b &&& 0x80 = 0` is exactly `b < 128`. -/
theorem and128_eq_zero_iff : ∀ x, x < 256 → ((x &&& 128 = 0) ↔ x < 128) := by decide

/-- Characterisation of the `io.EOF` outcome of the `readID` loop: starting
with `i + rem = 4`, the loop ends in `eof` exactly when the buffer runs out
within the remaining iterations and every unread byte has the continuation
bit set. -/
theorem readIDGo_eof_iff (data : List Nat) :
    ∀ rem pos i v, i + rem = 4 → 1 ≤ rem →
      (readIDGo data pos i v rem = Except.error NextErr.eof ↔
        (data.length ≤ pos + (rem - 1) ∧
          ∀ k, pos ≤ k → k < data.length → 128 ≤ data.getD k 0 % 256)) := by
  intro rem
  induction rem with
  | zero => intro pos i v _ h1; omega
  | succ r ih =>
    intro pos i v hi _
    rw [readIDGo]
    cases hb : byteAt data pos with
    | none =>
      have hlen : data.length ≤ pos := by
        by_contra hlt
        push_neg at hlt
        simp [byteAt, List.get?_eq_getElem?, List.getElem?_eq_getElem hlt] at hb
      constructor
      · intro _
        exact ⟨by omega, fun k hk1 hk2 => absurd hk2 (by omega)⟩
      · intro _
        rfl
    | some b =>
      have hpos : pos < data.length := by
        by_contra hge
        push_neg at hge
        rw [byteAt, List.get?_eq_getElem?, List.getElem?_eq_none hge] at hb
        simp at hb
      have hbval : b = data.getD pos 0 % 256 := by
        simp [byteAt, List.get?_eq_getElem?, List.getElem?_eq_getElem hpos] at hb
        simp [List.getD_eq_getElem?_getD, List.getElem?_eq_getElem hpos, ← hb]
      have hblt : b < 256 := by omega
      by_cases hcont : b &&& 128 = 0
      · have hlt128 : b < 128 := (and128_eq_zero_iff b hblt).mp hcont
        simp only [hcont, if_pos rfl]
        constructor
        · intro h; cases h
        · rintro ⟨-, hall⟩
          have := hall pos le_rfl hpos
          omega
      · simp only [if_neg hcont]
        have hge128 : 128 ≤ b := by
          by_contra hlt
          push_neg at hlt
          exact hcont ((and128_eq_zero_iff b hblt).mpr hlt)
        by_cases hi3 : i = 3
        · have hr0 : r = 0 := by omega
          subst hr0
          simp only [if_pos hi3]
          constructor
          · intro h; cases h
          · rintro ⟨hlen, -⟩; omega
        · have hr1 : 1 ≤ r := by omega
          simp only [if_neg hi3]
          rw [ih (pos + 1) (i + 1) (v + (b <<< (8 * i))) (by omega) hr1]
          constructor
          · rintro ⟨hlen, hall⟩
            refine ⟨by omega, fun k hk1 hk2 => ?_⟩
            rcases Nat.eq_or_lt_of_le hk1 with hkeq | hklt
            · subst hkeq; omega
            · exact hall k (by omega) hk2
          · rintro ⟨hlen, hall⟩
            exact ⟨by omega, fun k hk1 hk2 => hall k (by omega) hk2⟩

/-- `readID` from the start of a buffer gives `io.EOF` exactly when the whole
buffer has at most 3 bytes, all carrying the continuation bit. -/
theorem readID_eof_iff (data : List Nat) :
    readID data 0 = Except.error NextErr.eof ↔
      (data.length ≤ 3 ∧ ∀ b ∈ data, 128 ≤ b % 256) := by
  rw [readID, readIDGo_eof_iff data 4 0 0 0 (by omega) (by omega)]
  constructor
  · rintro ⟨hlen, hall⟩
    refine ⟨by omega, fun b hb => ?_⟩
    obtain ⟨k, hk, rfl⟩ := List.mem_iff_getElem.mp hb
    have := hall k (by omega) hk
    simpa [List.getD_eq_getElem?_getD, List.getElem?_eq_getElem hk] using this
  · rintro ⟨hlen, hall⟩
    refine ⟨by omega, fun k _ hk => ?_⟩
    have hmem : data[k] ∈ data := List.getElem_mem hk
    have := hall _ hmem
    simpa [List.getD_eq_getElem?_getD, List.getElem?_eq_getElem hk] using this

end Record

/-- C1 (amended): `Reader.Next` returns the non-error end-of-stream result
(`io.EOF`) exactly when the stream is exhausted during the record-ID read —
i.e. the whole remaining stream is at most 3 bytes, each carrying the
continuation bit (including the empty stream).  In every other case `Next`
either succeeds or returns an explicit error: in particular, once a complete
record ID has been read, a truncation before the length field or the declared
payload is a `corrupt` error, never `eof`. -/
theorem Record.next_eof_iff (data : List Nat) :
    Record.next data 0 = Except.error Record.NextErr.eof ↔
      (data.length ≤ 3 ∧ ∀ b ∈ data, 128 ≤ b % 256) := by
  rw [← Record.readID_eof_iff data]
  rw [Record.next]
  cases hid : Record.readID data 0 with
  | error e =>
    cases e with
    | eof => simp
    | corrupt m =>
      simp only []
      constructor
      · intro h; cases h
      · intro h; cases h
  | ok idp =>
    obtain ⟨recID, p1⟩ := idp
    simp only []
    cases hlen : Record.readLen data p1 with
    | error e =>
      constructor
      · intro h; cases h
      · intro h; cases h
    | ok lnp =>
      obtain ⟨recLen, p2⟩ := lnp
      simp only []
      constructor
      · intro h
        by_cases h1 : Record.maxRecordLen < recLen
        · rw [if_pos h1] at h; cases h
        · rw [if_neg h1] at h
          by_cases h2 : recLen = 0
          · rw [if_pos h2] at h; cases h
          · rw [if_neg h2] at h
            cases hp : Record.readPayload data p2 recLen with
            | none => rw [hp] at h; cases h
            | some pp => rw [hp] at h; cases h
      · intro h; cases h

/-- C1 counterexample: the stream consisting of the single byte `0x80` — one
record-ID byte whose continuation bit promises further bytes, followed by end
of stream — makes `Reader.Next` return the non-error end-of-stream result
`io.EOF`, not an explicit error.  This refutes the claim that an ID byte with
the continuation bit set followed by truncation always yields an explicit
error. -/
theorem Record.next_continuation_byte_truncation_is_eof :
    Record.next [0x80] 0 = Except.error Record.NextErr.eof := rfl


namespace RecordReader

/-- The symbolic pre-scaling value built by `RecordReader.ReadFloat`
(from `record/record_reader.go`): either `float64(raw >> 2)` (arithmetic
shift) or `math.Float64frombits(bits)`.  The float construction is kept
symbolic; the integer data determining it is exact. -/
inductive PackedBase where
  | intVal (v : Int)
  | bitsVal (bits : Nat)
deriving DecidableEq, Repr

/-- Result of `ReadFloat`: the pre-scaling base value plus the bit-0 flag
(`div100 = true` means the final float is divided by 100). -/
structure PackedFloat where
  base : PackedBase
  div100 : Bool
deriving DecidableEq, Repr

/-- Go's `int32(u)` conversion from a `uint32` bit pattern. -/
def int32OfUint32 (u : Nat) : Int := if u < 2 ^ 31 then (u : Int) else (u : Int) - 2 ^ 32

/-- Go's `uint32(x)` conversion of an `int32` (two's-complement bit pattern). -/
def uint32OfInt32 (x : Int) : Nat := (x % 2 ^ 32).toNat

/-- Go's arithmetic (sign-extending) right shift by 2 on `int32`:
`x >> 2` rounds toward negative infinity, i.e. floor division by 4. -/
def shiftRightArith2 (x : Int) : Int := Int.fdiv x 4

/-- `RecordReader.remaining`: unread byte count. -/
def remaining (data : List Nat) (pos : Nat) : Nat := data.length - pos

/-- `RecordReader.ReadUint8`. -/
def ReadUint8 (data : List Nat) (pos : Nat) : Except String (Nat × Nat) :=
  if remaining data pos < 1 then .error "ErrUnexpectedEOF"
  else .ok (data.getD pos 0 % 256, pos + 1)

/-- `RecordReader.ReadUint32`: little-endian 4-byte read. -/
def ReadUint32 (data : List Nat) (pos : Nat) : Except String (Nat × Nat) :=
  if remaining data pos < 4 then .error "ErrUnexpectedEOF"
  else .ok (data.getD pos 0 % 256 +
            (data.getD (pos + 1) 0 % 256) * 2 ^ 8 +
            (data.getD (pos + 2) 0 % 256) * 2 ^ 16 +
            (data.getD (pos + 3) 0 % 256) * 2 ^ 24, pos + 4)

/-- `RecordReader.ReadInt32`: `int32` view of `ReadUint32`. -/
def ReadInt32 (data : List Nat) (pos : Nat) : Except String (Int × Nat) :=
  match ReadUint32 data pos with
  | .error e => .error e
  | .ok (u, p) => .ok (int32OfUint32 u, p)

/-- `RecordReader.ReadDouble`: little-endian 8-byte read, kept as the raw
IEEE-754 bit pattern (`math.Float64frombits` is symbolic). -/
def ReadDouble (data : List Nat) (pos : Nat) : Except String (Nat × Nat) :=
  if remaining data pos < 8 then .error "ErrUnexpectedEOF"
  else .ok ((List.range 8).foldl
              (fun acc i => acc + (data.getD (pos + i) 0 % 256) <<< (8 * i)) 0,
            pos + 8)

/-- `RecordReader.ReadFloat` (from `record/record_reader.go`): 4-byte packed
numeric.  Bit 1 of `raw` selects `float64(raw >> 2)` (arithmetic shift);
otherwise the value is `Float64frombits` of `uint32(raw) & 0xFFFFFFFC`
shifted into the high 32 bits; bit 0 requests a final division by 100.
Bit tests on the `int32` value `raw` are performed on its two's-complement
pattern `uint32(raw)`, exactly as Go's `raw & 0x02` does. -/
def ReadFloat (data : List Nat) (pos : Nat) : Except String (PackedFloat × Nat) :=
  match ReadInt32 data pos with
  | .error e => .error e
  | .ok (raw, p) =>
    let u : Nat := uint32OfInt32 raw
    if u &&& 0x02 ≠ 0 then
      .ok ({ base := .intVal (shiftRightArith2 raw), div100 := u &&& 0x01 != 0 }, p)
    else
      .ok ({ base := .bitsVal ((u &&& 0xFFFFFFFC) <<< 32), div100 := u &&& 0x01 != 0 }, p)

/-- `ReadUint32` succeeds exactly on ≥ 4 remaining bytes, yields `u < 2^32`
and advances by 4. -/
theorem ReadUint32_ok (data : List Nat) (pos u : Nat) (p : Nat)
    (h : ReadUint32 data pos = .ok (u, p)) : u < 2 ^ 32 ∧ p = pos + 4 := by
  rw [ReadUint32] at h
  by_cases hr : remaining data pos < 4
  · rw [if_pos hr] at h; cases h
  · rw [if_neg hr] at h
    injection h with h
    injection h with h1 h2
    constructor
    · have b0 := Nat.mod_lt (data.getD pos 0) (show 0 < 256 by omega)
      have b1 := Nat.mod_lt (data.getD (pos + 1) 0) (show 0 < 256 by omega)
      have b2 := Nat.mod_lt (data.getD (pos + 2) 0) (show 0 < 256 by omega)
      have b3 := Nat.mod_lt (data.getD (pos + 3) 0) (show 0 < 256 by omega)
      omega
    · omega

/-- Round-trip: converting a 32-bit pattern to `int32` and back is the
identity. -/
theorem uint32OfInt32_int32OfUint32 (u : Nat) (hu : u < 2 ^ 32) :
    uint32OfInt32 (int32OfUint32 u) = u := by
  rw [int32OfUint32, uint32OfInt32]
  split
  · omega
  · omega

end RecordReader

/-- C4: the packed-numeric read.  (a) With fewer than 4 bytes remaining the
read fails with an explicit error.  (b) On success, bit 1 of the raw value
selects the arithmetic (sign-preserving) shift `raw >> 2` — floor division by
4 — while otherwise the result is the IEEE-754 bit pattern whose low 32 bits
are zero and whose high 32 bits are the raw pattern with its two low bits
cleared; bit 0 requests the final division by 100.  (c) The arithmetic shift
maps `-4` to `-1`, not to `1073741823` (the unsigned-shift result). -/
theorem RecordReader.ReadFloat_spec (data : List Nat) (pos : Nat) :
    (data.length < pos + 4 →
      RecordReader.ReadFloat data pos = .error "ErrUnexpectedEOF") ∧
    (∀ u p, RecordReader.ReadUint32 data pos = .ok (u, p) →
      RecordReader.ReadFloat data pos = .ok
        ({ base := if u &&& 2 ≠ 0 then
                     .intVal (Int.fdiv (RecordReader.int32OfUint32 u) 4)
                   else
                     .bitsVal ((u &&& 0xFFFFFFFC) <<< 32),
           div100 := u &&& 1 != 0 }, p)) ∧
    RecordReader.shiftRightArith2 (-4) = -1 ∧
    RecordReader.shiftRightArith2 (-4) ≠ 1073741823 := by
  refine ⟨?_, ?_, by decide, by decide⟩
  · intro hlen
    rw [RecordReader.ReadFloat, RecordReader.ReadInt32, RecordReader.ReadUint32,
      if_pos (by rw [RecordReader.remaining]; omega)]
  · intro u p h
    obtain ⟨hu, -⟩ := RecordReader.ReadUint32_ok data pos u p h
    rw [RecordReader.ReadFloat, RecordReader.ReadInt32, h]
    simp only [RecordReader.uint32OfInt32_int32OfUint32 u hu,
      RecordReader.shiftRightArith2]
    by_cases hc : u &&& 2 ≠ 0
    · simp only [if_pos hc]
    · simp only [if_neg hc]

/-- C4 witness: the byte pattern `FA FF FF FF` decodes to the raw `int32`
value `-6`; bit 1 is set, so the packed value takes the arithmetic-shift path
and yields `-6 >> 2 = -2` (sign-preserving), with no division by 100. -/
theorem RecordReader.ReadFloat_spec_witness :
    RecordReader.ReadFloat [0xFA, 0xFF, 0xFF, 0xFF] 0 =
      .ok ({ base := .intVal (-2), div100 := false }, 4) := by
  have h := (RecordReader.ReadFloat_spec [0xFA, 0xFF, 0xFF, 0xFF] 0).2.1
    0xFFFFFFFA 4 (by rw [RecordReader.ReadUint32]; rfl)
  rw [h]
  norm_num [RecordReader.int32OfUint32]
  decide



namespace Dateformat

/-- `dateformat.IsBuiltInDateID` (from `internal/dateformat/dateformat.go`):
built-in date/time numFmtIds 14–22, 27–36, 45–47, 50–58. -/
def IsBuiltInDateID (id : Int) : Bool :=
  if 14 ≤ id ∧ id ≤ 22 then true
  else if 27 ≤ id ∧ id ≤ 36 then true
  else if 45 ≤ id ∧ id ≤ 47 then true
  else if 50 ≤ id ∧ id ≤ 58 then true
  else false

/-- The post-switch `lastDP` update of `dateformat.ScanFormatStr`: outside
quotes and brackets, a digit-placeholder character (`0`, `#`, `?`, `.`)
becomes the new `lastDP`. -/
def scanUpd (inQ inB : Bool) (lastDP ch : Char) : Char :=
  if inQ = false ∧ inB = false then
    if ch = '0' ∨ ch = '#' ∨ ch = '?' ∨ ch = '.' then ch else lastDP
  else lastDP

/-- The character loop of `dateformat.ScanFormatStr`.  `lastDP` starts as the
zero rune (Go's `var lastDP rune`); the quote/bracket state updates of the
Go `switch` are written as direct branches, and `scanUpd` is the shared
post-switch update. -/
def scanGo : List Char → Bool → Bool → Char → Bool
  | [], _, _, _ => false
  | ch :: rest, inQ, inB, lastDP =>
    if inQ then
      if ch = '"' then scanGo rest false inB (scanUpd false inB lastDP ch)
      else scanGo rest true inB (scanUpd true inB lastDP ch)
    else if inB then
      if ch = ']' then scanGo rest inQ false (scanUpd inQ false lastDP ch)
      else scanGo rest inQ true (scanUpd inQ true lastDP ch)
    else if ch = '"' then scanGo rest true inB (scanUpd true inB lastDP ch)
    else if ch = '[' then scanGo rest inQ true (scanUpd inQ true lastDP ch)
    else if ch = 'd' ∨ ch = 'D' ∨ ch = 'm' ∨ ch = 'M' ∨ ch = 'y' ∨ ch = 'Y' ∨
            ch = 'h' ∨ ch = 'H' ∨ ch = 's' ∨ ch = 'S' then true
    else if ch = 'e' ∨ ch = 'E' then
      if lastDP ≠ '0' ∧ lastDP ≠ '#' ∧ lastDP ≠ '?' ∧ lastDP ≠ '.' then true
      else scanGo rest inQ inB (scanUpd inQ inB lastDP ch)
    else scanGo rest inQ inB (scanUpd inQ inB lastDP ch)

/-- `dateformat.ScanFormatStr`: scans the unquoted/unbracketed part of a
custom number-format string for date-token characters; `e`/`E` counts only
when the most recent digit placeholder does not precede it. -/
def ScanFormatStr (s : String) : Bool :=
  scanGo s.data false false (Char.ofNat 0)

end Dateformat

namespace Numfmt

/-- `numfmt.isDateFormat` (from the numfmt package): delegates to the shared
`dateformat` classifier. -/
def isDateFormat (id : Int) (s : String) : Bool :=
  if Dateformat.IsBuiltInDateID id then true
  else if id < 164 then false
  else Dateformat.ScanFormatStr s

end Numfmt

namespace Styles

/-- The custom-format scan of `styles.isDateFormatID`, current revision of
the styles package (the unnamed source file carrying the v1.1.0 s/S
extension): same structure as the shared classifier, but `prev` is the
immediately preceding character outside quotes/brackets — updated for every
such character, not only placeholders — and the `e`/`E` test is made
against it. -/
def isDateFormatGoStyles : List Char → Bool → Bool → Char → Bool
  | [], _, _, _ => false
  | ch :: rest, inQ, inB, prev =>
    if inQ then
      if ch = '"' then isDateFormatGoStyles rest false inB ch
      else isDateFormatGoStyles rest true inB prev
    else if inB then
      if ch = ']' then isDateFormatGoStyles rest inQ false ch
      else isDateFormatGoStyles rest inQ true prev
    else if ch = '"' then isDateFormatGoStyles rest true inB prev
    else if ch = '[' then isDateFormatGoStyles rest inQ true prev
    else if ch = 'd' ∨ ch = 'D' ∨ ch = 'm' ∨ ch = 'M' ∨ ch = 'y' ∨ ch = 'Y' ∨
            ch = 'h' ∨ ch = 'H' ∨ ch = 's' ∨ ch = 'S' then true
    else if ch = 'e' ∨ ch = 'E' then
      if prev ≠ '0' ∧ prev ≠ '#' ∧ prev ≠ '?' ∧ prev ≠ '.' then true
      else isDateFormatGoStyles rest inQ inB ch
    else isDateFormatGoStyles rest inQ inB ch

/-- `styles.isDateFormatID`, current styles-package revision (with `s`/`S`
and the `prev`-based `e`/`E` rule).  `StyleTable.IsDate` runs this copy. -/
def isDateFormatID (id : Int) (s : String) : Bool :=
  if 14 ≤ id ∧ id ≤ 22 then true
  else if 27 ≤ id ∧ id ≤ 36 then true
  else if 45 ≤ id ∧ id ≤ 47 then true
  else if 50 ≤ id ∧ id ≤ 58 then true
  else if id < 164 then false
  else isDateFormatGoStyles s.data false false (Char.ofNat 0)

end Styles

namespace StylesOld

/-- The custom-format scan of the older `styles.isDateFormatID` revision
kept at `src/styles/styles.go` (lines 96–138): only `d/D m/M y/Y h/H` are
date tokens — it has neither the `s`/`S` extension nor any `e`/`E` rule. -/
def isDateFormatGoStylesOld : List Char → Bool → Bool → Bool
  | [], _, _ => false
  | ch :: rest, inQ, inB =>
    if inQ then
      if ch = '"' then isDateFormatGoStylesOld rest false inB
      else isDateFormatGoStylesOld rest true inB
    else if inB then
      if ch = ']' then isDateFormatGoStylesOld rest inQ false
      else isDateFormatGoStylesOld rest inQ true
    else if ch = '"' then isDateFormatGoStylesOld rest true inB
    else if ch = '[' then isDateFormatGoStylesOld rest inQ true
    else if ch = 'd' ∨ ch = 'D' ∨ ch = 'm' ∨ ch = 'M' ∨ ch = 'y' ∨ ch = 'Y' ∨
            ch = 'h' ∨ ch = 'H' then true
    else isDateFormatGoStylesOld rest inQ inB

/-- `styles.isDateFormatID`, older revision (`src/styles/styles.go`). -/
def isDateFormatID (id : Int) (s : String) : Bool :=
  if 14 ≤ id ∧ id ≤ 22 then true
  else if 27 ≤ id ∧ id ≤ 36 then true
  else if 45 ≤ id ∧ id ≤ 47 then true
  else if 50 ≤ id ∧ id ≤ 58 then true
  else if id < 164 then false
  else isDateFormatGoStylesOld s.data false false

end StylesOld

namespace Workbook

/-- The custom-format scan of `workbook.isDateFormatID` (the copy in the
workbook package): only `d/D m/M y/Y h/H s/S` are date tokens; there is no
`e`/`E` rule. -/
def isDateFormatGoWorkbook : List Char → Bool → Bool → Bool
  | [], _, _ => false
  | ch :: rest, inQ, inB =>
    if inQ then
      if ch = '"' then isDateFormatGoWorkbook rest false inB
      else isDateFormatGoWorkbook rest true inB
    else if inB then
      if ch = ']' then isDateFormatGoWorkbook rest inQ false
      else isDateFormatGoWorkbook rest inQ true
    else if ch = '"' then isDateFormatGoWorkbook rest true inB
    else if ch = '[' then isDateFormatGoWorkbook rest inQ true
    else if ch = 'd' ∨ ch = 'D' ∨ ch = 'm' ∨ ch = 'M' ∨ ch = 'y' ∨ ch = 'Y' ∨
            ch = 'h' ∨ ch = 'H' ∨ ch = 's' ∨ ch = 'S' then true
    else isDateFormatGoWorkbook rest inQ inB

/-- `workbook.isDateFormatID`. -/
def isDateFormatID (id : Int) (s : String) : Bool :=
  if 14 ≤ id ∧ id ≤ 22 then true
  else if 27 ≤ id ∧ id ≤ 36 then true
  else if 45 ≤ id ∧ id ≤ 47 then true
  else if 50 ≤ id ∧ id ≤ 58 then true
  else if id < 164 then false
  else isDateFormatGoWorkbook s.data false false

end Workbook

namespace DateSpec

/-- State of the specification-worded scan: quote/bracket context, the last
digit-placeholder character seen outside literals (ignoring intervening
non-placeholder characters), and whether a date token has been found. -/
structure ScanState where
  inQuote : Bool
  inBracket : Bool
  lastPlaceholder : Option Char
  found : Bool
deriving DecidableEq, Repr

/-- One character of the scan described by the specification: date-token
characters `d/D/m/M/y/Y/h/H/s/S` outside double-quoted literals and
square-bracket sections are hits; `e/E` is a hit only when no numeric
placeholder `0/#/?/.` precedes it (ignoring intervening non-placeholder
characters). -/
def specScanChar (st : ScanState) (ch : Char) : ScanState :=
  if st.found then st
  else if st.inQuote then
    if ch = '"' then { st with inQuote := false } else st
  else if st.inBracket then
    if ch = ']' then { st with inBracket := false } else st
  else if ch = '"' then { st with inQuote := true }
  else if ch = '[' then { st with inBracket := true }
  else if ch = 'd' ∨ ch = 'D' ∨ ch = 'm' ∨ ch = 'M' ∨ ch = 'y' ∨ ch = 'Y' ∨
          ch = 'h' ∨ ch = 'H' ∨ ch = 's' ∨ ch = 'S' then { st with found := true }
  else if (ch = 'e' ∨ ch = 'E') ∧ st.lastPlaceholder = none then { st with found := true }
  else if ch = '0' ∨ ch = '#' ∨ ch = '?' ∨ ch = '.' then { st with lastPlaceholder := some ch }
  else st

/-- The specification's custom-format date-token scan. -/
def specDateTokenScan (s : String) : Bool :=
  (s.data.foldl specScanChar ⟨false, false, none, false⟩).found

/-- The date-like classifier exactly as the specification words it:
built-in IDs 14–22, 27–36, 45–47 and 50–58 are date-like, every other ID
below 164 is not, and IDs ≥ 164 use the custom-format scan. -/
def specIsDateLike (id : Int) (s : String) : Bool :=
  if (14 ≤ id ∧ id ≤ 22) ∨ (27 ≤ id ∧ id ≤ 36) ∨ (45 ≤ id ∧ id ≤ 47) ∨
     (50 ≤ id ∧ id ≤ 58) then true
  else if id < 164 then false
  else specDateTokenScan s

/-- Once the spec scan has found a date token, folding further characters
keeps it found. -/
theorem foldl_specScanChar_found (cs : List Char) :
    ∀ st : ScanState, st.found = true →
      (cs.foldl specScanChar st).found = true := by
  induction cs with
  | nil => intro st h; exact h
  | cons c rest ih =>
    intro st h
    rw [List.foldl_cons]
    have hstep : specScanChar st c = st := by
      rw [specScanChar, if_pos h]
    rw [hstep]
    exact ih st h

/-- Relation between the Go loop's `lastDP` character (zero rune when no
placeholder has been seen) and the spec state's `lastPlaceholder`. -/
def plMatches (lastDP : Char) (pl : Option Char) : Prop :=
  match pl with
  | none => lastDP ≠ '0' ∧ lastDP ≠ '#' ∧ lastDP ≠ '?' ∧ lastDP ≠ '.'
  | some c => lastDP = c ∧ (c = '0' ∨ c = '#' ∨ c = '?' ∨ c = '.')

/-- The Go scan loop of `dateformat.ScanFormatStr` agrees, character by
character, with the specification's scan. -/
theorem scanGo_eq_spec (cs : List Char) :
    ∀ (inQ inB : Bool) (lastDP : Char) (pl : Option Char), plMatches lastDP pl →
      Dateformat.scanGo cs inQ inB lastDP =
        (cs.foldl specScanChar ⟨inQ, inB, pl, false⟩).found := by
  induction cs with
  | nil => intro inQ inB lastDP pl _; rfl
  | cons ch rest ih =>
    intro inQ inB lastDP pl hpl
    rw [List.foldl_cons]
    cases inQ with
    | true =>
      by_cases hch : ch = '"'
      · subst hch
        have h1 : specScanChar ⟨true, inB, pl, false⟩ '"' = ⟨false, inB, pl, false⟩ := by
          simp [specScanChar]
        have h2 : Dateformat.scanUpd false inB lastDP '"' = lastDP := by
          simp [Dateformat.scanUpd]
        rw [h1]
        simp only [Dateformat.scanGo, if_pos rfl, h2]
        exact ih false inB lastDP pl hpl
      · have h1 : specScanChar ⟨true, inB, pl, false⟩ ch = ⟨true, inB, pl, false⟩ := by
          simp [specScanChar, hch]
        have h2 : Dateformat.scanUpd true inB lastDP ch = lastDP := by
          simp [Dateformat.scanUpd]
        rw [h1]
        simp only [Dateformat.scanGo, if_neg hch, if_pos rfl, h2]
        exact ih true inB lastDP pl hpl
    | false =>
      cases inB with
      | true =>
        by_cases hch : ch = ']'
        · subst hch
          have h1 : specScanChar ⟨false, true, pl, false⟩ ']' = ⟨false, false, pl, false⟩ := by
            simp [specScanChar]
          have h2 : Dateformat.scanUpd false false lastDP ']' = lastDP := by
            simp [Dateformat.scanUpd]
          rw [h1]
          simp only [Dateformat.scanGo, h2]
          norm_num
          exact ih false false lastDP pl hpl
        · have h1 : specScanChar ⟨false, true, pl, false⟩ ch = ⟨false, true, pl, false⟩ := by
            simp [specScanChar, hch]
          have h2 : Dateformat.scanUpd false true lastDP ch = lastDP := by
            simp [Dateformat.scanUpd]
          rw [h1]
          simp only [Dateformat.scanGo, if_neg hch, h2]
          norm_num
          exact ih false true lastDP pl hpl
      | false =>
        by_cases hdq : ch = '"'
        · subst hdq
          have h1 : specScanChar ⟨false, false, pl, false⟩ '"' = ⟨true, false, pl, false⟩ := by
            simp [specScanChar]
          have h2 : Dateformat.scanUpd true false lastDP '"' = lastDP := by
            simp [Dateformat.scanUpd]
          rw [h1]
          simp only [Dateformat.scanGo, h2]
          norm_num
          exact ih true false lastDP pl hpl
        · by_cases hob : ch = '['
          · subst hob
            have h1 : specScanChar ⟨false, false, pl, false⟩ '[' = ⟨false, true, pl, false⟩ := by
              simp [specScanChar]
            have h2 : Dateformat.scanUpd false true lastDP '[' = lastDP := by
              simp [Dateformat.scanUpd]
            rw [h1]
            simp only [Dateformat.scanGo, h2]
            norm_num
            exact ih false true lastDP pl hpl
          · by_cases hdate : ch = 'd' ∨ ch = 'D' ∨ ch = 'm' ∨ ch = 'M' ∨ ch = 'y' ∨
                ch = 'Y' ∨ ch = 'h' ∨ ch = 'H' ∨ ch = 's' ∨ ch = 'S'
            · have h1 : specScanChar ⟨false, false, pl, false⟩ ch = ⟨false, false, pl, true⟩ := by
                rw [specScanChar]
                rw [if_neg (by simp), if_neg (by simp), if_neg (by simp),
                  if_neg hdq, if_neg hob, if_pos hdate]
              rw [h1]
              rw [foldl_specScanChar_found rest _ rfl]
              simp only [Dateformat.scanGo, if_neg hdq, if_neg hob, if_pos hdate]
              norm_num
            · by_cases heE : ch = 'e' ∨ ch = 'E'
              · have hnotph : ¬(ch = '0' ∨ ch = '#' ∨ ch = '?' ∨ ch = '.') := by
                  rcases heE with h | h <;> subst h <;> simp
                cases pl with
                | none =>
                  obtain ⟨p1, p2, p3, p4⟩ := hpl
                  have h1 : specScanChar ⟨false, false, none, false⟩ ch
                      = ⟨false, false, none, true⟩ := by
                    rw [specScanChar]
                    rw [if_neg (by simp), if_neg (by simp), if_neg (by simp),
                      if_neg hdq, if_neg hob, if_neg hdate, if_pos ⟨heE, rfl⟩]
                  rw [h1]
                  rw [foldl_specScanChar_found rest _ rfl]
                  simp only [Dateformat.scanGo, if_neg hdq, if_neg hob, if_neg hdate,
                    if_pos heE]
                  norm_num
                  exact Or.inl ⟨p1, p2, p3, p4⟩
                | some c =>
                  obtain ⟨hdp, hc⟩ := hpl
                  subst hdp
                  have hcond : ¬(lastDP ≠ '0' ∧ lastDP ≠ '#' ∧ lastDP ≠ '?' ∧ lastDP ≠ '.') := by
                    rcases hc with h | h | h | h <;> subst h <;> simp
                  have h1 : specScanChar ⟨false, false, some lastDP, false⟩ ch
                      = ⟨false, false, some lastDP, false⟩ := by
                    rw [specScanChar]
                    rw [if_neg (by simp), if_neg (by simp), if_neg (by simp),
                      if_neg hdq, if_neg hob, if_neg hdate,
                      if_neg (by simp : ¬((ch = 'e' ∨ ch = 'E') ∧ (some lastDP : Option Char) = none)),
                      if_neg hnotph]
                  rw [h1]
                  have h2 : Dateformat.scanUpd false false lastDP ch = lastDP := by
                    simp [Dateformat.scanUpd, hnotph]
                  simp only [Dateformat.scanGo, if_neg hdq, if_neg hob, if_neg hdate,
                    if_pos heE, if_neg hcond, h2]
                  norm_num
                  exact ih false false lastDP (some lastDP) ⟨rfl, hc⟩
              · by_cases hph : ch = '0' ∨ ch = '#' ∨ ch = '?' ∨ ch = '.'
                · have h1 : specScanChar ⟨false, false, pl, false⟩ ch
                      = ⟨false, false, some ch, false⟩ := by
                    rw [specScanChar]
                    rw [if_neg (by simp), if_neg (by simp), if_neg (by simp),
                      if_neg hdq, if_neg hob, if_neg hdate,
                      if_neg (by intro h; exact heE h.1), if_pos hph]
                  rw [h1]
                  have h2 : Dateformat.scanUpd false false lastDP ch = ch := by
                    simp [Dateformat.scanUpd, hph]
                  simp only [Dateformat.scanGo, if_neg hdq, if_neg hob, if_neg hdate,
                    if_neg heE, h2]
                  norm_num
                  exact ih false false ch (some ch) ⟨rfl, hph⟩
                · have h1 : specScanChar ⟨false, false, pl, false⟩ ch
                      = ⟨false, false, pl, false⟩ := by
                    rw [specScanChar]
                    rw [if_neg (by simp), if_neg (by simp), if_neg (by simp),
                      if_neg hdq, if_neg hob, if_neg hdate,
                      if_neg (by intro h; exact heE h.1), if_neg hph]
                  rw [h1]
                  have h2 : Dateformat.scanUpd false false lastDP ch = lastDP := by
                    simp [Dateformat.scanUpd, hph]
                  simp only [Dateformat.scanGo, if_neg hdq, if_neg hob, if_neg hdate,
                    if_neg heE, h2]
                  norm_num
                  exact ih false false lastDP pl hpl

end DateSpec

/-- C5 (amended): the shared `internal/dateformat` classifier — as used by
`numfmt.isDateFormat` — implements exactly the specified classification:
built-in IDs 14–22, 27–36, 45–47 and 50–58 are date-like, every other ID
below 164 is not, and for IDs ≥ 164 the format string is scanned outside
quoted literals and bracket sections for `d/D/m/M/y/Y/h/H/s/S`, with `e/E`
counting only when not preceded — ignoring intervening non-placeholder
characters — by a numeric placeholder `0/#/?/.`.  Only `xlsb.IsDateFormat`
and the numfmt renderer use this shared classifier; the duplicated copies in
the styles and workbook packages each deviate from the rule — see the
counterexample. -/
theorem Numfmt.isDateFormat_matches_spec (id : Int) (s : String) :
    Numfmt.isDateFormat id s = DateSpec.specIsDateLike id s := by
  have hpl : DateSpec.plMatches (Char.ofNat 0) none :=
    ⟨by decide, by decide, by decide, by decide⟩
  have hscan : Dateformat.ScanFormatStr s = DateSpec.specDateTokenScan s := by
    rw [Dateformat.ScanFormatStr, DateSpec.specDateTokenScan]
    exact DateSpec.scanGo_eq_spec s.data false false (Char.ofNat 0) none hpl
  have hbi : Dateformat.IsBuiltInDateID id = true ↔
      ((14 ≤ id ∧ id ≤ 22) ∨ (27 ≤ id ∧ id ≤ 36) ∨ (45 ≤ id ∧ id ≤ 47) ∨
        (50 ≤ id ∧ id ≤ 58)) := by
    rw [Dateformat.IsBuiltInDateID]
    split_ifs with h1 h2 h3 h4 <;> simp <;> omega
  rw [Numfmt.isDateFormat, DateSpec.specIsDateLike, hscan]
  by_cases hb : (14 ≤ id ∧ id ≤ 22) ∨ (27 ≤ id ∧ id ≤ 36) ∨ (45 ≤ id ∧ id ≤ 47) ∨
      (50 ≤ id ∧ id ≤ 58)
  · rw [if_pos (hbi.mpr hb), if_pos hb]
  · rw [if_neg (fun hh => hb (hbi.mp hh)), if_neg hb]

/-- C5 counterexample: the exposed copies of the date-like classifier do not
all implement the specified scan.  The current styles-package copy
classifies the custom format `"0)e"` as date-like (its `prev` test sees `)`,
masking the placeholder `0`), while the specified scan does not; the older
styles.go revision recognises neither `s` nor `e` as date tokens, rejecting
`"s"` and `"e"`, both of which the specified scan accepts; and the
workbook-package copy never treats `e` as a date token, rejecting `"e"`. -/
theorem Styles.isDateFormatID_deviates_from_spec :
    Styles.isDateFormatID 164 "0)e" = true ∧
    DateSpec.specIsDateLike 164 "0)e" = false ∧
    StylesOld.isDateFormatID 164 "s" = false ∧
    DateSpec.specIsDateLike 164 "s" = true ∧
    StylesOld.isDateFormatID 164 "e" = false ∧
    Workbook.isDateFormatID 164 "e" = false ∧
    DateSpec.specIsDateLike 164 "e" = true := by
  refine ⟨?_, ?_, ?_, ?_, ?_, ?_, ?_⟩ <;> decide


namespace Numfmt

/-- Model of the token stream produced by the external `nfp` format-string
tokenizer, at the granularity consumed by the numfmt renderer.  A
`condTok parts` carries `none` when the token has fewer than two sub-parts,
`some (op, none)` when the operand fails float parsing, and
`some (op, some q)` for a well-formed `[op operand]` condition (values over
`ℚ`).  `currencyLang raw curSym` carries the raw bracket text and the
currency-string sub-part, if present. -/
inductive FTok where
  | condTok (parts : Option (String × Option ℚ))
  | zeroPH (v : String)
  | hashPH (v : String)
  | digitalPH (v : String)
  | decimalPoint (v : String)
  | thousandsSep
  | percent
  | fractionTok
  | denomTok (v : String)
  | exponential (v : String)
  | literal (v : String)
  | textPH
  | dateTimes (v : String)
  | elapsedDateTimes (v : String)
  | alignment
  | repeatsChar (v : String)
  | currencyLang (raw : String) (curSym : Option String)
  | colorTok
deriving DecidableEq, Repr

/-- One section of a parsed number format (`nfp.Section.Items`). -/
abbrev Section := List FTok

/-- `numfmt.currencySymbol`: extracts the printable symbol from a
currency/locale bracket token; non-`[$...]` brackets yield the empty
string. -/
def currencySymbol (raw : String) (curSym : Option String) : String :=
  let cs := raw.data
  if cs.length < 3 ∨ cs.getD 0 ' ' ≠ '[' ∨ cs.getD 1 ' ' ≠ '$' then ""
  else
    match curSym with
    | some s => s
    | none =>
      if 2 ≤ cs.length ∧ cs.getD 0 ' ' = '[' ∧ cs.getD (cs.length - 1) ' ' = ']' then
        let inner := (cs.drop 1).take (cs.length - 2)
        let inner2 := if inner ≠ [] ∧ inner.getD 0 ' ' = '$' then inner.drop 1 else inner
        String.mk (inner2.takeWhile (fun c => c ≠ '-'))
      else raw

/-- `numfmt.extractCondition`: the first token of the section that is a
well-formed condition (two parts, parseable operand); malformed condition
tokens are skipped. -/
def extractCondition : Section → Option (String × ℚ)
  | [] => none
  | .condTok (some (op, some q)) :: _ => some (op, q)
  | _ :: rest => extractCondition rest

/-- `numfmt.evalCondition`: the six Excel condition operators over the value
(embedded over `ℚ`). -/
def evalCondition (val : ℚ) (op : String) (operand : ℚ) : Bool :=
  if op = "<" then decide (val < operand)
  else if op = "<=" then decide (val ≤ operand)
  else if op = ">" then decide (operand < val)
  else if op = ">=" then decide (operand ≤ val)
  else if op = "<>" then decide (val ≠ operand)
  else if op = "=" then decide (val = operand)
  else false

/-- First pass of `numfmt.selectSection`: the first section, in document
order, whose (well-formed) condition the value satisfies. -/
def selectFirstMatch : List Section → ℚ → Option Section
  | [], _ => none
  | s :: rest, val =>
    match extractCondition s with
    | some (op, operand) =>
      if evalCondition val op operand then some s else selectFirstMatch rest val
    | none => selectFirstMatch rest val

/-- Whether any section carries a well-formed condition (the sticky
`hasAnyCondition` flag of the first loop of `selectSection`). -/
def hasAnyCondition (sections : List Section) : Bool :=
  sections.any (fun s => (extractCondition s).isSome)

/-- The reverse scan of `selectSection`: the last section with no well-formed
condition token. -/
def lastCondFree (sections : List Section) : Option Section :=
  sections.reverse.find? (fun s => (extractCondition s).isNone)

/-- `numfmt.selectSection` (from the numfmt package): conditional sections
first (first match wins, magnitude rendering), then fallback to the last
condition-free section (else the last section), else classic sign-based
dispatch by section count.  The `[]` case is unreachable from `formatFloat`,
which guards `len(sections) == 0`. -/
def selectSection (sections : List Section) (val : ℚ) : Section × Bool :=
  match selectFirstMatch sections val with
  | some sec => (sec, true)
  | none =>
    if hasAnyCondition sections then
      match lastCondFree sections with
      | some sec => (sec, false)
      | none => (sections.getLastD [], true)
    else
      match sections with
      | [] => ([], false)
      | [s] => (s, false)
      | [s1, s2] => if val < 0 then (s2, false) else (s1, false)
      | s1 :: s2 :: s3 :: _ =>
        if 0 < val then (s1, false) else if val < 0 then (s2, false) else (s3, false)

/-- The `renderVal` computation of `numfmt.formatFloat`: when the selected
section was chosen by a condition, rendering uses `math.Abs(val)`. -/
def formatFloatRenderVal (sections : List Section) (val : ℚ) : ℚ :=
  if (selectSection sections val).2 then |val| else val

end Numfmt

namespace NumfmtSpec

/-- Whether the value satisfies the section's condition (false when the
section carries no well-formed condition). -/
def condMatches (v : ℚ) (s : Numfmt.Section) : Bool :=
  match Numfmt.extractCondition s with
  | some (op, operand) => Numfmt.evalCondition v op operand
  | none => false

/-- Section selection as the specification words it: if any section carries a
condition, conditions are evaluated in document order and the first section
whose condition the value satisfies is selected; if none matches, the last
condition-free section, else the last section.  Without conditions, dispatch
is by sign: one section applies to all values; with two, `v ≥ 0` selects the
first and `v < 0` the second; with three or four, `v > 0` the first, `v < 0`
the second and `v = 0` the third. -/
def specSelect (sections : List Numfmt.Section) (v : ℚ) : Option Numfmt.Section :=
  if sections.any (fun s => (Numfmt.extractCondition s).isSome) then
    match sections.find? (condMatches v) with
    | some s => some s
    | none =>
      match (sections.filter (fun s => (Numfmt.extractCondition s).isNone)).getLast? with
      | some s => some s
      | none => sections.getLast?
  else
    match sections with
    | [] => none
    | [s] => some s
    | [s1, s2] => some (if 0 ≤ v then s1 else s2)
    | s1 :: s2 :: s3 :: _ => some (if 0 < v then s1 else if v < 0 then s2 else s3)

/-- The first pass of the Go `selectSection` is the document-order first
matching conditional section. -/
theorem selectFirstMatch_eq_find (sections : List Numfmt.Section) (v : ℚ) :
    Numfmt.selectFirstMatch sections v = sections.find? (condMatches v) := by
  induction sections with
  | nil => rfl
  | cons s rest ih =>
    rw [List.find?_cons]
    cases hc : Numfmt.extractCondition s with
    | none =>
      have : condMatches v s = false := by rw [condMatches, hc]
      rw [this]
      simpa [Numfmt.selectFirstMatch, hc] using ih
    | some p =>
      obtain ⟨op, operand⟩ := p
      have hcm : condMatches v s = Numfmt.evalCondition v op operand := by
        rw [condMatches, hc]
      by_cases he : Numfmt.evalCondition v op operand = true
      · rw [hcm, he]
        simp [Numfmt.selectFirstMatch, hc, he]
      · have he' : Numfmt.evalCondition v op operand = false := by
          revert he; cases Numfmt.evalCondition v op operand <;> simp
        rw [hcm, he']
        simpa [Numfmt.selectFirstMatch, hc, he'] using ih

/-- `find?` over a list is the head of its filtration. -/
theorem find_eq_head_filter {α : Type} (p : α → Bool) (l : List α) :
    l.find? p = (l.filter p).head? := by
  induction l with
  | nil => rfl
  | cons a rest ih =>
    rw [List.find?_cons, List.filter_cons]
    cases hp : p a with
    | true => simp
    | false => simp only [cond_false]; exact ih

/-- The reverse scan for the last condition-free section equals the last
element of the condition-free filtration. -/
theorem lastCondFree_eq_filter_getLast (sections : List Numfmt.Section) :
    Numfmt.lastCondFree sections =
      (sections.filter (fun s => (Numfmt.extractCondition s).isNone)).getLast? := by
  rw [Numfmt.lastCondFree, find_eq_head_filter, List.filter_reverse,
    List.head?_reverse]


end NumfmtSpec

/-- C6: section selection and the magnitude rule.  The Go `selectSection`
selects exactly the section the specification describes: when some section
carries a condition, conditions are evaluated in document order, the first
section whose condition `v` satisfies is selected, and rendering then uses
the magnitude `|v|`; when no condition matches, the last condition-free
section is selected, else the last section.  Without conditions, one section
applies to all values; with two, `v ≥ 0` selects the first and `v < 0` the
second; with three or four, `v > 0` the first, `v < 0` the second and
`v = 0` the third. -/
theorem Numfmt.selectSection_matches_spec (sections : List Numfmt.Section) (v : ℚ)
    (h : sections ≠ []) :
    some (Numfmt.selectSection sections v).1 = NumfmtSpec.specSelect sections v ∧
    ((sections.find? (NumfmtSpec.condMatches v)).isSome = true →
      (Numfmt.selectSection sections v).2 = true ∧
      Numfmt.formatFloatRenderVal sections v = |v|) := by
  constructor
  · rw [Numfmt.selectSection.eq_def, NumfmtSpec.specSelect.eq_def, NumfmtSpec.selectFirstMatch_eq_find]
    cases hf : sections.find? (NumfmtSpec.condMatches v) with
    | some s =>
      have hp : NumfmtSpec.condMatches v s = true := List.find?_some hf
      have hmem : s ∈ sections := List.mem_of_find?_eq_some hf
      have hs : (Numfmt.extractCondition s).isSome = true := by
        rw [NumfmtSpec.condMatches] at hp
        cases hc : Numfmt.extractCondition s with
        | none => rw [hc] at hp; cases hp
        | some p => rfl
      have hany : (sections.any fun s => (Numfmt.extractCondition s).isSome) = true :=
        List.any_eq_true.mpr ⟨s, hmem, hs⟩
      rw [if_pos hany]
    | none =>
      rw [Numfmt.hasAnyCondition]
      by_cases hany : (sections.any fun s => (Numfmt.extractCondition s).isSome) = true
      · rw [if_pos hany, if_pos hany, NumfmtSpec.lastCondFree_eq_filter_getLast]
        cases hlf : (sections.filter fun s => (Numfmt.extractCondition s).isNone).getLast? with
        | some sec => rfl
        | none =>
          have hsome : sections.getLast?.isSome := List.getLast?_isSome.mpr h
          obtain ⟨x, hx⟩ := Option.isSome_iff_exists.mp hsome
          rw [hx]
          have : sections.getLastD [] = x := by
            rw [List.getLastD_eq_getLast?, hx]
            rfl
          rw [this]
      · have hany' : (sections.any fun s => (Numfmt.extractCondition s).isSome) = false := by
          revert hany
          cases sections.any fun s => (Numfmt.extractCondition s).isSome <;> simp
        rw [hany', if_neg (by simp), if_neg (by simp)]
        match sections with
        | [] => exact absurd rfl h
        | [s] => rfl
        | [s1, s2] =>
          by_cases hv : v < 0
          · simp [hv, not_le.mpr hv]
          · simp [hv, le_of_not_lt hv]
        | s1 :: s2 :: s3 :: rest =>
          by_cases hv1 : 0 < v
          · simp [hv1]
          · by_cases hv2 : v < 0
            · simp [hv1, hv2]
            · simp [hv1, hv2]
  · intro hsome
    obtain ⟨s, hf⟩ := Option.isSome_iff_exists.mp hsome
    have hsel : Numfmt.selectSection sections v = (s, true) := by
      rw [Numfmt.selectSection.eq_def, NumfmtSpec.selectFirstMatch_eq_find, hf]
    refine ⟨by rw [hsel], ?_⟩
    rw [Numfmt.formatFloatRenderVal, hsel, if_pos rfl]

/-- C6 witness: a two-section format whose first section carries the
condition `[<0]`, applied to `v = -2`: the conditional section matches first
and rendering uses the magnitude `2`. -/
theorem Numfmt.selectSection_matches_spec_witness :
    some (Numfmt.selectSection
        [[Numfmt.FTok.condTok (some ("<", some 0))], [Numfmt.FTok.zeroPH "0"]] (-2)).1 =
      NumfmtSpec.specSelect
        [[Numfmt.FTok.condTok (some ("<", some 0))], [Numfmt.FTok.zeroPH "0"]] (-2) ∧
    Numfmt.formatFloatRenderVal
        [[Numfmt.FTok.condTok (some ("<", some 0))], [Numfmt.FTok.zeroPH "0"]] (-2) = 2 := by
  have h := Numfmt.selectSection_matches_spec
    [[Numfmt.FTok.condTok (some ("<", some 0))], [Numfmt.FTok.zeroPH "0"]] (-2)
    (by simp)
  refine ⟨h.1, ?_⟩
  have h2 := h.2 (by decide)
  rw [h2.2]
  norm_num

namespace Numfmt

/-- Exact ℚ subtraction written with `Rat.divInt` so that concrete
evaluations reduce in the kernel (the library marks `Rat.sub` irreducible);
`qSub_eq` proves it is ordinary ℚ subtraction. -/
def qSub (a b : ℚ) : ℚ :=
  Rat.divInt (a.num * (b.den : Int) - b.num * (a.den : Int)) ((a.den : Int) * (b.den : Int))

/-- Exact ℚ addition via `Rat.divInt`; see `qAdd_eq`. -/
def qAdd (a b : ℚ) : ℚ :=
  Rat.divInt (a.num * (b.den : Int) + b.num * (a.den : Int)) ((a.den : Int) * (b.den : Int))

/-- Exact ℚ multiplication via `Rat.divInt`; see `qMul_eq`. -/
def qMul (a b : ℚ) : ℚ :=
  Rat.divInt (a.num * b.num) ((a.den : Int) * (b.den : Int))

/-- The ℚ value `m / n` for natural `m`, `n`; see `qDivNat_eq`. -/
def qDivNat (m n : Nat) : ℚ := Rat.divInt (m : Int) (n : Int)

/-- `math.Abs`, evaluably: `qAbs_eq` proves it is `|x|`. -/
def qAbs (x : ℚ) : ℚ := if x < 0 then -x else x

theorem qSub_eq (a b : ℚ) : qSub a b = a - b := by
  conv_rhs => rw [← Rat.num_divInt_den a, ← Rat.num_divInt_den b]
  rw [Rat.divInt_sub_divInt _ _ (Int.natCast_ne_zero.mpr a.den_nz)
    (Int.natCast_ne_zero.mpr b.den_nz)]
  rfl

theorem qAdd_eq (a b : ℚ) : qAdd a b = a + b := by
  conv_rhs => rw [← Rat.num_divInt_den a, ← Rat.num_divInt_den b]
  rw [Rat.divInt_add_divInt _ _ (Int.natCast_ne_zero.mpr a.den_nz)
    (Int.natCast_ne_zero.mpr b.den_nz)]
  rfl

theorem qMul_eq (a b : ℚ) : qMul a b = a * b := by
  conv_rhs => rw [← Rat.num_divInt_den a, ← Rat.num_divInt_den b]
  rw [Rat.divInt_mul_divInt']
  rfl

theorem qDivNat_eq (m n : Nat) : qDivNat m n = (m : ℚ) / (n : ℚ) := by
  rw [qDivNat, Rat.divInt_eq_div]
  push_cast
  rfl

theorem qAbs_eq (x : ℚ) : qAbs x = |x| := by
  rw [qAbs]
  split_ifs with h
  · exact (abs_of_neg h).symm
  · exact (abs_of_nonneg (le_of_not_lt h)).symm

/-- `strconv.Atoi` as applied to an `nfp` fixed-denominator token value
(a literal digit string). -/
def parseAtoi (s : String) : Option Int :=
  if s.data ≠ [] ∧ s.data.all (fun c => c.isDigit) then
    some ((s.data.foldl (fun acc c => acc * 10 + (c.toNat - 48)) 0 : Nat) : Int)
  else none

/-- `strings.Repeat(" ", n)`. -/
def repeatSpaces (n : Nat) : String := String.mk (List.replicate n ' ')

/-- Left space padding to width `w` (the `for len < w` prepend loop). -/
def padLeftSpaces (s : String) (w : Nat) : String :=
  repeatSpaces (w - s.length) ++ s

/-- Right space padding to width `w`. -/
def padRightSpaces (s : String) (w : Nat) : String :=
  s ++ repeatSpaces (w - s.length)

/-- The `1e-10` tolerance of `bestFraction` (`fracEps_eq` relates it to the
literal `1 / 10^10`). -/
def fracEps : ℚ := mkRat 1 (10 ^ 10)

theorem fracEps_eq : fracEps = 1 / 10 ^ 10 := by
  rw [fracEps, Rat.mkRat_eq_div]
  norm_num

/-- The final `pick the closer of lo and hi` step of `bestFraction`. -/
def pickCloser (x : ℚ) (loN loD hiN hiD : Nat) : Nat × Nat :=
  if qAbs (qSub x (qDivNat loN loD)) ≤ qAbs (qSub x (qDivNat hiN hiD)) then (loN, loD)
  else (hiN, hiD)

/-- The Stern–Brocot mediant loop of `numfmt.bestFraction`, embedded over
`ℚ`.  `fuel` only bounds the recursion: the denominator sum `loD + hiD`
starts at 2 and strictly increases each step, and the loop exits as soon as
the mediant denominator exceeds `maxDen`, so the `maxDen + 2` fuel passed by
`bestFraction` is never exhausted. -/
def bestFractionGo (x : ℚ) (maxDen : Nat) : Nat → Nat → Nat → Nat → Nat → Nat × Nat
  | 0, loN, loD, hiN, hiD => pickCloser x loN loD hiN hiD
  | fuel + 1, loN, loD, hiN, hiD =>
    let medN := loN + hiN
    let medD := loD + hiD
    if maxDen < medD then pickCloser x loN loD hiN hiD
    else if qAbs (qSub x (qDivNat medN medD)) < fracEps then (medN, medD)
    else if x < qDivNat medN medD then bestFractionGo x maxDen fuel loN loD medN medD
    else bestFractionGo x maxDen fuel medN medD hiN hiD

/-- `numfmt.bestFraction`: best rational approximation `p/q` of `x` with
`q ≤ maxDen` (Stern–Brocot search). -/
def bestFraction (x : ℚ) (maxDen : Nat) : Nat × Nat :=
  if x ≤ 0 then (0, 1)
  else if 1 ≤ x then (1, 1)
  else bestFractionGo x maxDen (maxDen + 2) 0 1 1 1

/-- `numfmt.bestImproperFraction`: decomposes `x = ⌊x⌋ + frac` and
reconstructs the improper numerator. -/
def bestImproperFraction (x : ℚ) (maxDen : Nat) : Nat × Nat :=
  if x ≤ 0 then (0, 1)
  else
    let ip := x.floor.toNat
    let fr := qSub x (ip : ℚ)
    let fd := bestFraction fr maxDen
    (ip * fd.2 + fd.1, fd.2)

/-- `math.Round` for the nonnegative fractional values of the
fixed-denominator path (half away from zero = half up for `x ≥ 0`). -/
def qRound (x : ℚ) : Nat := (qAdd x (mkRat 1 2)).floor.toNat

/-- The token pre-scan of `numfmt.renderFraction`: placeholder widths, the
integer-part flag, a fixed denominator, and the numerator/denominator phase. -/
structure FracScan where
  hasIntPart : Bool
  numWidth : Nat
  denWidth : Nat
  fixedDen : Nat
  phase : Nat
deriving DecidableEq, Repr

/-- The scan loop of `renderFraction` over the section's tokens. -/
def fracScanGo : List FTok → FracScan → FracScan
  | [], st => st
  | tok :: rest, st =>
    match tok with
    | .hashPH _ =>
      fracScanGo rest (if st.phase = 0 then { st with hasIntPart := true } else st)
    | .digitalPH v =>
      fracScanGo rest
        (if st.phase = 0 then { st with numWidth := v.length }
         else { st with denWidth := v.length })
    | .denomTok v =>
      let st2 :=
        match parseAtoi v with
        | some n => if 0 < n then { st with fixedDen := n.toNat, denWidth := v.length } else st
        | none => st
      fracScanGo rest { st2 with phase := 1 }
    | .fractionTok => fracScanGo rest { st with phase := 1 }
    | _ => fracScanGo rest st

/-- The token-walk state of `renderFraction`. -/
structure FracWalk where
  out : String
  intEmitted : Bool
  numEmitted : Bool
  denEmitted : Bool
  phase : Nat
deriving DecidableEq, Repr

/-- One step of the assembly walk of `renderFraction`. -/
def fracWalkStep (hasIntPart : Bool) (intPart : Nat) (zeroFrac : Bool) (fixedDen : Nat)
    (intStr numStr denStr : String) (st : FracWalk) (tok : FTok) : FracWalk :=
  match tok with
  | .hashPH _ =>
    if st.phase = 0 ∧ st.intEmitted = false then
      if intPart ≠ 0 ∨ hasIntPart = false then
        { st with out := st.out ++ intStr, intEmitted := true }
      else { st with intEmitted := true }
    else st
  | .digitalPH _ =>
    if st.phase = 0 ∧ st.numEmitted = false then
      { st with out := st.out ++ numStr, numEmitted := true }
    else if st.phase = 1 ∧ st.denEmitted = false then
      { st with out := st.out ++ denStr, denEmitted := true }
    else st
  | .denomTok _ =>
    if st.denEmitted = false then { st with out := st.out ++ denStr, denEmitted := true }
    else st
  | .fractionTok =>
    if zeroFrac = true ∧ fixedDen = 0 then { st with out := st.out ++ " ", phase := 1 }
    else { st with out := st.out ++ "/", phase := 1 }
  | .literal v =>
    if v = " " ∧ hasIntPart = true ∧ intPart = 0 ∧ st.intEmitted = false then
      { st with out := st.out ++ " " }
    else { st with out := st.out ++ v }
  | .alignment => { st with out := st.out ++ " " }
  | .repeatsChar v => if v ≠ "" then { st with out := st.out ++ v } else st
  | .currencyLang raw curSym => { st with out := st.out ++ currencySymbol raw curSym }
  | _ => st

/-- `numfmt.renderFraction` (from the numfmt package), embedded over `ℚ`.
Returns `none` where the Go code falls back to `renderGeneral` (no token
produced any output); otherwise `some` of the rendered string. -/
def renderFraction (val : ℚ) (sec : Section) (sections : List Section) : Option String :=
  let absVal := qAbs val
  let sc := fracScanGo sec ⟨false, 0, 0, 0, 0⟩
  let denWidth := if sc.denWidth = 0 then 1 else sc.denWidth
  let maxDen := 10 ^ denWidth - 1
  let intPart : Nat := if sc.hasIntPart then absVal.floor.toNat else 0
  let frac : ℚ := if sc.hasIntPart then qSub absVal ((absVal.floor.toNat : Nat) : ℚ) else absVal
  let nd : Nat × Nat :=
    if 0 < sc.fixedDen then (qRound (qMul frac ((sc.fixedDen : Nat) : ℚ)), sc.fixedDen)
    else if sc.hasIntPart then bestFraction frac maxDen
    else bestImproperFraction frac maxDen
  let carried : Nat × Nat × Nat :=
    if sc.hasIntPart ∧ 0 < nd.2 ∧ nd.2 ≤ nd.1 then (intPart + 1, 0, 1)
    else (intPart, nd.1, nd.2)
  let intPart2 := carried.1
  let num := carried.2.1
  let den := carried.2.2
  let needsMinus : Bool := decide (val < 0 ∧ sections.length < 2)
  let zeroFrac : Bool := decide (num = 0)
  let numStr : String :=
    if zeroFrac then repeatSpaces sc.numWidth
    else padLeftSpaces (toString num) sc.numWidth
  let denStr : String :=
    if zeroFrac then
      (if 0 < sc.fixedDen then toString sc.fixedDen else repeatSpaces denWidth)
    else padRightSpaces (toString den) denWidth
  let intStr := toString intPart2
  let start : FracWalk := ⟨if needsMinus then "-" else "", false, false, false, 0⟩
  let walked := sec.foldl
    (fracWalkStep sc.hasIntPart intPart2 zeroFrac sc.fixedDen intStr numStr denStr) start
  if walked.out.length = 0 then none else some walked.out

/-- Modelled from the spec: the token stream the external `nfp` tokenizer
produces for the format string `"# ?/?"` — a hash placeholder, a literal
space, a numerator placeholder `?`, the fraction slash, and a denominator
placeholder `?` (the spec's `DigitHash`, `Literal`, `DigitQuestion`,
`Fraction`, `DigitQuestion` token kinds). -/
def secHashQslashQ : Section :=
  [.hashPH "#", .literal " ", .digitalPH "?", .fractionTok, .digitalPH "?"]

end Numfmt

/-- C9: rendering `1.75` (= `7/4`) with the format `"# ?/?"` produces
exactly `"1 3/4"`, and rendering `2.0` with the same format produces `"2"`
followed by four spaces: with a zero fractional remainder the numerator,
slash and denominator positions are emitted as spaces of the placeholder
widths rather than omitted. -/
theorem Numfmt.renderFraction_padding_examples :
    mkRat 7 4 = (7 : ℚ) / 4 ∧
    Numfmt.renderFraction (mkRat 7 4) Numfmt.secHashQslashQ [Numfmt.secHashQslashQ] =
      some "1 3/4" ∧
    Numfmt.renderFraction (2 : ℚ) Numfmt.secHashQslashQ [Numfmt.secHashQslashQ] =
      some "2    " := by
  refine ⟨by rw [Rat.mkRat_eq_div]; norm_num, ?_, ?_⟩ <;> decide

namespace Worksheet

/-- Typed cell values (`Cell.V` in the worksheet package).  `nil` is the
blank/empty value; floats are kept as IEEE-754 bit patterns and packed
numerics as `RecordReader.PackedFloat`; a `FORMULA_STRING` value keeps its
UTF-16 code units (the decode to a Go string is a pure function of them). -/
inductive CellVal where
  | nil
  | num (p : RecordReader.PackedFloat)
  | float (bits : Nat)
  | boolVal (b : Bool)
  | str (s : String)
  | fstr (units : List Nat)
  | err (s : String)
deriving DecidableEq, Repr

/-- `worksheet.Dimension`: used range of a sheet.  The parser produces only
non-negative values within the Excel maxima, so the fields are `Nat`. -/
structure Dimension where
  R : Nat
  C : Nat
  H : Nat
  W : Nat
deriving DecidableEq, Repr

/-- `worksheet.Col`: a column-definition record.  `Width` is
`float64(widthRaw) / 256`, an exact dyadic rational. -/
structure Col where
  C1 : Nat
  C2 : Nat
  Width : ℚ
  Style : Nat
deriving DecidableEq, Repr

/-- `worksheet.MergeArea`: a merged range with its top-left anchor. -/
structure MergeArea where
  R : Nat
  C : Nat
  H : Nat
  W : Nat
deriving DecidableEq, Repr

/-- `worksheet.Cell`: one yielded cell.  `R` is the open row index (an `int`
in Go, `-1` before any row marker, hence `Int`); the column is a `Nat`
(decoded from `uint32`, so never negative). -/
structure Cell where
  R : Int
  C : Nat
  V : CellVal
  Style : Nat
deriving DecidableEq, Repr

/-- `worksheet.internalCell`: the temporary result of `parseCellRecord`. -/
structure InternalCell where
  C : Nat
  V : CellVal
  Style : Nat
deriving DecidableEq, Repr

/-- `errStrings` / `errString`: BIFF12 BErr codes to Excel error strings,
with a `0x%02x` hex fallback. -/
def hexDigit (n : Nat) : Char :=
  if n < 10 then Char.ofNat (48 + n) else Char.ofNat (97 + n - 10)

/-- Two-digit lowercase hex of a byte (`fmt.Sprintf("0x%02x", b)` body). -/
def hexByte (b : Nat) : String := String.mk [hexDigit (b / 16 % 16), hexDigit (b % 16)]

/-- `worksheet.errString`. -/
def errString (b : Nat) : String :=
  if b = 0x00 then "#NULL!"
  else if b = 0x07 then "#DIV/0!"
  else if b = 0x0F then "#VALUE!"
  else if b = 0x17 then "#REF!"
  else if b = 0x1D then "#NAME?"
  else if b = 0x24 then "#NUM!"
  else if b = 0x2A then "#N/A"
  else if b = 0x2B then "#GETTING_DATA"
  else "0x" ++ hexByte b

end Worksheet

namespace RecordReader

/-- `RecordReader.ReadString`: 4-byte character count followed by UTF-16LE
code units; the decoded units are returned as a list (the UTF-8 transcode is
a pure function of them and is kept symbolic). -/
def ReadString (data : List Nat) (pos : Nat) : Except String (List Nat × Nat) :=
  match ReadUint32 data pos with
  | .error e => .error e
  | .ok (charCount, p) =>
    if 0x3FFFFFFF < charCount then .error "record: string length is too large"
    else if remaining data p < charCount * 2 then .error "ErrUnexpectedEOF"
    else
      .ok ((List.range charCount).map
            (fun i => data.getD (p + 2 * i) 0 % 256 + (data.getD (p + 2 * i + 1) 0 % 256) * 256),
          p + charCount * 2)

end RecordReader

namespace Worksheet

/-- `worksheet.parseDimensionRecord`: four `uint32` fields with wrap-around
and Excel-maxima validation. -/
def parseDimensionRecord (data : List Nat) : Except String Dimension :=
  match RecordReader.ReadUint32 data 0 with
  | .error e => .error e
  | .ok (r1, p1) =>
    match RecordReader.ReadUint32 data p1 with
    | .error e => .error e
    | .ok (r2, p2) =>
      match RecordReader.ReadUint32 data p2 with
      | .error e => .error e
      | .ok (c1, p3) =>
        match RecordReader.ReadUint32 data p3 with
        | .error e => .error e
        | .ok (c2, _) =>
          if r2 < r1 then .error "dimension: r2 < r1"
          else if c2 < c1 then .error "dimension: c2 < c1"
          else if 0xFFFFF < r2 then .error "dimension: r2 exceeds Excel maximum row index"
          else if 0x3FFF < c2 then .error "dimension: c2 exceeds Excel maximum column index"
          else .ok ⟨r1, c1, r2 - r1 + 1, c2 - c1 + 1⟩

/-- `worksheet.parseColRecord` (current revision: style index above
`MaxInt32` clamps to 0). -/
def parseColRecord (data : List Nat) : Except String Col :=
  match RecordReader.ReadUint32 data 0 with
  | .error e => .error e
  | .ok (c1, p1) =>
    match RecordReader.ReadUint32 data p1 with
    | .error e => .error e
    | .ok (c2, p2) =>
      match RecordReader.ReadUint32 data p2 with
      | .error e => .error e
      | .ok (widthRaw, p3) =>
        match RecordReader.ReadUint32 data p3 with
        | .error e => .error e
        | .ok (style, _) =>
          .ok ⟨c1, c2, Rat.divInt widthRaw 256,
               if 0x7FFFFFFF < style then 0 else style⟩

/-- `worksheet.parseRowRecord`: the row index, capped at the Excel maximum. -/
def parseRowRecord (data : List Nat) : Except String Nat :=
  match RecordReader.ReadUint32 data 0 with
  | .error e => .error e
  | .ok (r, _) =>
    if 0xFFFFF < r then .error "worksheet: row index exceeds Excel maximum"
    else .ok r

/-- `worksheet.parseMergeCellRecord` (current revision, with Excel-maxima
caps). -/
def parseMergeCellRecord (data : List Nat) : Except String MergeArea :=
  match RecordReader.ReadUint32 data 0 with
  | .error e => .error e
  | .ok (r1, p1) =>
    match RecordReader.ReadUint32 data p1 with
    | .error e => .error e
    | .ok (r2, p2) =>
      match RecordReader.ReadUint32 data p2 with
      | .error e => .error e
      | .ok (c1, p3) =>
        match RecordReader.ReadUint32 data p3 with
        | .error e => .error e
        | .ok (c2, _) =>
          if r2 < r1 then .error "mergecell: r2 < r1"
          else if c2 < c1 then .error "mergecell: c2 < c1"
          else if 0xFFFFF < r2 then .error "mergecell: r2 exceeds Excel maximum row index"
          else if 0x3FFF < c2 then .error "mergecell: c2 exceeds Excel maximum column index"
          else .ok ⟨r1, c1, r2 - r1 + 1, c2 - c1 + 1⟩

/-- `worksheet.hyperlinkRecord`: the decoded HYPERLINK range and its
relationship ID (UTF-16 code units). -/
structure HyperlinkRecord where
  R : Nat
  C : Nat
  H : Nat
  W : Nat
  RID : List Nat
deriving DecidableEq, Repr

/-- `worksheet.parseHyperlinkRecord`. -/
def parseHyperlinkRecord (data : List Nat) : Except String HyperlinkRecord :=
  match RecordReader.ReadUint32 data 0 with
  | .error e => .error e
  | .ok (r1, p1) =>
    match RecordReader.ReadUint32 data p1 with
    | .error e => .error e
    | .ok (r2, p2) =>
      match RecordReader.ReadUint32 data p2 with
      | .error e => .error e
      | .ok (c1, p3) =>
        match RecordReader.ReadUint32 data p3 with
        | .error e => .error e
        | .ok (c2, p4) =>
          match RecordReader.ReadString data p4 with
          | .error e => .error e
          | .ok (rid, _) =>
            if r2 < r1 then .error "hyperlink: r2 < r1"
            else if c2 < c1 then .error "hyperlink: c2 < c1"
            else if 0xFFFFF < r2 then .error "hyperlink: r2 exceeds Excel maximum row index"
            else if 0x3FFF < c2 then .error "hyperlink: c2 exceeds Excel maximum column index"
            else .ok ⟨r1, c1, r2 - r1 + 1, c2 - c1 + 1, rid⟩

/-- `worksheet.parseCellRecord` (current revision): column, style (clamped
to 0 above `MaxInt32`; a failed style read degrades to a col-only cell), and
the record-type-specific value.  Record types without a switch case (BLANK
and the unused `0x06` gap) leave the value `nil`. -/
def parseCellRecord (data : List Nat) (recID : Nat) (st : Option (List String)) :
    Except String InternalCell :=
  match RecordReader.ReadUint32 data 0 with
  | .error e => .error e
  | .ok (col, p1) =>
    match RecordReader.ReadUint32 data p1 with
    | .error _ => .ok ⟨col, .nil, 0⟩
    | .ok (styleRaw, p2) =>
      let style := if 0x7FFFFFFF < styleRaw then 0 else styleRaw
      let v : CellVal :=
        if recID = Biff12.Num then
          match RecordReader.ReadFloat data p2 with
          | .error _ => .nil
          | .ok (f, _) => .num f
        else if recID = Biff12.BoolErr then
          match RecordReader.ReadUint8 data p2 with
          | .error _ => .nil
          | .ok (b, _) => .err (errString b)
        else if recID = Biff12.BoolRec then
          match RecordReader.ReadUint8 data p2 with
          | .error _ => .nil
          | .ok (b, _) => .boolVal (b ≠ 0)
        else if recID = Biff12.Float then
          match RecordReader.ReadDouble data p2 with
          | .error _ => .nil
          | .ok (bits, _) => .float bits
        else if recID = Biff12.String then
          match RecordReader.ReadUint32 data p2 with
          | .error _ => .nil
          | .ok (idx, _) =>
            match st with
            | some table =>
              if idx < table.length then .str (table.getD idx "")
              else .str ("<" ++ toString idx ++ ">")
            | none => .str ("<" ++ toString idx ++ ">")
        else if recID = Biff12.FormulaString then
          match RecordReader.ReadString data p2 with
          | .error _ => .nil
          | .ok (units, _) => .fstr units
        else if recID = Biff12.FormulaFloat then
          match RecordReader.ReadDouble data p2 with
          | .error _ => .nil
          | .ok (bits, _) => .float bits
        else if recID = Biff12.FormulaBool then
          match RecordReader.ReadUint8 data p2 with
          | .error _ => .nil
          | .ok (b, _) => .boolVal (b ≠ 0)
        else if recID = Biff12.FormulaBoolErr then
          match RecordReader.ReadUint8 data p2 with
          | .error _ => .nil
          | .ok (b, _) => .err (errString b)
        else .nil
      .ok ⟨col, v, style⟩

end Worksheet

namespace Record

/-- A successful `byteAt` read means the position is inside the buffer. -/
theorem byteAt_some_lt (data : List Nat) (pos b : Nat)
    (h : byteAt data pos = some b) : pos < data.length := by
  by_contra hge
  rw [byteAt, List.get?_eq_getElem?, List.getElem?_eq_none (by omega)] at h
  simp at h

/-- `readIDGo` consumes at least one byte and stays inside the buffer. -/
theorem readIDGo_bounds (data : List Nat) :
    ∀ rem pos i v id p', readIDGo data pos i v rem = .ok (id, p') →
      pos < p' ∧ p' ≤ data.length := by
  intro rem
  induction rem with
  | zero => intro pos i v id p' h; simp [readIDGo] at h
  | succ n ih =>
    intro pos i v id p' h
    rw [readIDGo] at h
    cases hb : byteAt data pos with
    | none => rw [hb] at h; simp at h
    | some b =>
      rw [hb] at h
      dsimp only at h
      have hlt := byteAt_some_lt data pos b hb
      by_cases hc : b &&& 0x80 = 0
      · rw [if_pos hc] at h
        cases h
        omega
      · rw [if_neg hc] at h
        by_cases hi : i = 3
        · rw [if_pos hi] at h; simp at h
        · rw [if_neg hi] at h
          have := ih (pos + 1) (i + 1) _ id p' h
          omega

/-- `readLenGo` consumes at least one byte and stays inside the buffer. -/
theorem readLenGo_bounds (data : List Nat) :
    ∀ rem pos i v n p', readLenGo data pos i v rem = .ok (n, p') →
      pos < p' ∧ p' ≤ data.length := by
  intro rem
  induction rem with
  | zero => intro pos i v n p' h; simp [readLenGo] at h
  | succ k ih =>
    intro pos i v n p' h
    rw [readLenGo] at h
    cases hb : byteAt data pos with
    | none => rw [hb] at h; simp at h
    | some b =>
      rw [hb] at h
      dsimp only at h
      have hlt := byteAt_some_lt data pos b hb
      by_cases hc : b &&& 0x80 = 0
      · rw [if_pos hc] at h
        cases h
        omega
      · rw [if_neg hc] at h
        by_cases hi : i = 3
        · rw [if_pos hi] at h; simp at h
        · rw [if_neg hi] at h
          have := ih (pos + 1) (i + 1) _ n p' h
          omega

/-- A successful `Next` strictly advances the position and stays inside the
buffer (the well-foundedness fact behind every scanning loop). -/
theorem next_bounds (data : List Nat) (pos recID : Nat) (payload : List Nat)
    (p' : Nat) (h : next data pos = .ok (recID, payload, p')) :
    pos < p' ∧ p' ≤ data.length := by
  rw [next] at h
  cases hid : readID data pos with
  | error e => rw [hid] at h; cases e <;> simp at h
  | ok r =>
    obtain ⟨id0, p1⟩ := r
    rw [hid] at h
    dsimp only at h
    have hb1 := readIDGo_bounds data 4 pos 0 0 id0 p1 hid
    cases hlen : readLen data p1 with
    | error e => rw [hlen] at h; simp at h
    | ok r2 =>
      obtain ⟨recLen, p2⟩ := r2
      rw [hlen] at h
      dsimp only at h
      have hb2 := readLenGo_bounds data 4 p1 0 0 recLen p2 hlen
      by_cases hmax : maxRecordLen < recLen
      · rw [if_pos hmax] at h; simp at h
      · rw [if_neg hmax] at h
        by_cases h0 : recLen = 0
        · rw [if_pos h0] at h
          cases h
          omega
        · rw [if_neg h0] at h
          cases hp : readPayload data p2 recLen with
          | none => rw [hp] at h; simp at h
          | some r3 =>
            obtain ⟨pl, p3⟩ := r3
            rw [hp] at h
            dsimp only at h
            cases h
            rw [readPayload] at hp
            by_cases hle : p2 + recLen ≤ data.length
            · rw [if_pos hle] at hp
              cases hp
              omega
            · rw [if_neg hle] at hp; simp at hp

end Record

namespace Worksheet

/-- The SheetData skip loop inside `Worksheet.parse` (current revision,
lines 998–1010): read records until SHEETDATAEND; any `Next` failure
(including `io.EOF`) aborts.  Returns the position after the SHEETDATAEND
record on success. -/
def skipSheetData (data : List Nat) (pos : Nat) : Except Record.NextErr Nat :=
  match h : Record.next data pos with
  | .error e => .error e
  | .ok (recID, _, p2) =>
    if recID = Biff12.SheetDataEnd then .ok p2
    else skipSheetData data p2
termination_by data.length - pos
decreasing_by
  have := Record.next_bounds data pos _ _ _ h
  omega

/-- The skip loop consumes at least one record and stays inside the buffer. -/
theorem skipSheetData_bounds (data : List Nat) :
    ∀ n pos p3, data.length - pos = n → skipSheetData data pos = .ok p3 →
      pos < p3 ∧ p3 ≤ data.length := by
  intro n
  induction n using Nat.strong_induction_on with
  | _ n ih =>
    intro pos p3 hn h
    rw [skipSheetData] at h
    split at h
    · simp at h
    · rename_i recID rd p2 hnx
      have hb := Record.next_bounds data pos recID rd p2 hnx
      split at h
      · cases h; omega
      · have := ih (data.length - p2) (by omega) p2 p3 rfl h
        omega

/-- The pass-1 scan state accumulated by `Worksheet.parse`: the optional
dimension, column definitions, the byte offset just after the SHEETDATA
marker, whether SHEETDATA was seen, merge ranges, and hyperlink entries
(the Go map insert order; later entries for a key override earlier ones). -/
structure Meta where
  dimension : Option Dimension
  cols : List Col
  dataOffset : Nat
  hasSheetData : Bool
  mergeCells : List MergeArea
  hyperlinks : List ((Nat × Nat) × List Nat)
deriving DecidableEq, Repr

/-- The fresh `Worksheet` state built by `New` before `parse` runs. -/
def initMeta : Meta := ⟨none, [], 0, false, [], []⟩

/-- The nested `for dr := range hl.H { for dc := range hl.W { ... } }`
hyperlink fan-out of `Worksheet.parse`. -/
def hyperlinkEntries (hl : HyperlinkRecord) : List ((Nat × Nat) × List Nat) :=
  (List.range hl.H).flatMap
    (fun dr => (List.range hl.W).map (fun dc => ((hl.R + dr, hl.C + dc), hl.RID)))

/-- Main loop of `Worksheet.parse` (current revision): `io.EOF` from `Next`
breaks cleanly, any other `Next` error is fatal; DIMENSION/COL/MERGECELL
records that fail to decode are skipped; SHEETDATA records the offset, marks
the flag and runs the skip loop, whose failure is fatal; HYPERLINK records
are ignored when no rels part was parsed (`ws.rels == nil`, here
`hasRels = false`). -/
def parseGo (data : List Nat) (hasRels : Bool) : Nat → Meta → Except String Meta
  | pos, m =>
    match h : Record.next data pos with
    | .error .eof => .ok m
    | .error (.corrupt msg) => .error ("worksheet parse: " ++ msg)
    | .ok (recID, recData, p2) =>
      if recID = Biff12.Dimension then
        match parseDimensionRecord recData with
        | .ok dim => parseGo data hasRels p2 { m with dimension := some dim }
        | .error _ => parseGo data hasRels p2 m
      else if recID = Biff12.Col then
        match parseColRecord recData with
        | .ok col => parseGo data hasRels p2 { m with cols := m.cols ++ [col] }
        | .error _ => parseGo data hasRels p2 m
      else if recID = Biff12.SheetData then
        match hs : skipSheetData data p2 with
        | .error _ => .error "worksheet: reading SheetData records: stream truncated or corrupt"
        | .ok p3 => parseGo data hasRels p3 { m with dataOffset := p2, hasSheetData := true }
      else if recID = Biff12.MergeCell then
        match parseMergeCellRecord recData with
        | .ok ma => parseGo data hasRels p2 { m with mergeCells := m.mergeCells ++ [ma] }
        | .error _ => parseGo data hasRels p2 m
      else if recID = Biff12.Hyperlink then
        if hasRels then
          match parseHyperlinkRecord recData with
          | .ok hl => parseGo data hasRels p2 { m with hyperlinks := m.hyperlinks ++ hyperlinkEntries hl }
          | .error _ => parseGo data hasRels p2 m
        else parseGo data hasRels p2 m
      else parseGo data hasRels p2 m
termination_by pos _ => data.length - pos
decreasing_by
  all_goals first
    | (have hb := Record.next_bounds data pos _ _ _ h
       have hc := skipSheetData_bounds data _ _ _ rfl hs
       omega)
    | (have hb := Record.next_bounds data pos _ _ _ h
       omega)

/-- `Worksheet.parse` run from the start of the worksheet part. -/
def parse (data : List Nat) (hasRels : Bool) : Except String Meta :=
  parseGo data hasRels 0 initMeta

end Worksheet

namespace Worksheet

/-- `Worksheet.effectiveDim`: the decoded dimension, or the zero-based 1×1
fallback when no DIMENSION record was decoded. -/
def effectiveDim (d : Option Dimension) : Dimension :=
  match d with
  | some dim => dim
  | none => ⟨0, 0, 1, 1⟩

/-- The row width computed by `makeEmptyRow`: `w := dim.C + dim.W`, bumped to
1 when `w <= 0` (with `Nat` fields this is `w = 0`). -/
def rowWidth (dim : Dimension) : Nat :=
  if dim.C + dim.W = 0 then 1 else dim.C + dim.W

/-- `worksheet.makeEmptyRow`: a row of nil-valued cells `{R: rowNum, C: i}`. -/
def makeEmptyRow (rowNum : Int) (dim : Dimension) : List Cell :=
  (List.range (rowWidth dim)).map (fun i => ⟨rowNum, i, .nil, 0⟩)

/-- The consumer of the `Rows` iterator, modelled by the number of further
rows it is willing to pull.  `doYield` is one call of Go's `yield`: the row
is always delivered (the loop body runs), and the returned `Bool` is
`yield`'s result — whether the consumer keeps pulling.  `none` is an
unbounded consumer (a full `for range` loop with no `break`). -/
def doYield : Option Nat → Bool × Option Nat
  | none => (true, none)
  | some n => (decide (n ≠ 0), some (n - 1))

/-- The dense-mode filler loop of `Worksheet.Rows`
(`for rowNum < r-1 { rowNum++; if !yield(makeEmptyRow(rowNum, dim)) { return } }`),
run for `k` iterations starting just above `rowNum`.  Returns the delivered
rows, the consumer state, and whether `yield` returned false (which makes
the whole iterator return). -/
def fillRows (dim : Dimension) : Nat → Int → Option Nat → List (List Cell) × Option Nat × Bool
  | 0, _, budget => ([], budget, false)
  | k + 1, rowNum, budget =>
    let rn := rowNum + 1
    let y := doYield budget
    if y.1 then
      let rest := fillRows dim k rn y.2
      (makeEmptyRow rn dim :: rest.1, rest.2.1, rest.2.2)
    else ([makeEmptyRow rn dim], y.2, true)

/-- `Rows`'s trailing flush (`if row != nil && !stopped { yield(row) }`):
the rows it delivers. -/
def flushAll (row : Option (List Cell)) : List (List Cell) :=
  match row with
  | some cells => [cells]
  | none => []

/-- `ws.Err` after the `Next` error that ended the loop: `io.EOF` is the
clean end (no error), anything else is recorded. -/
def errOf (e : Record.NextErr) : Option String :=
  match e with
  | .eof => none
  | .corrupt m => some m

/-- The cell-record step of the `Rows` loop: ignored when no row is open or
the cell fails to decode; a decoded cell is stored only when its column fits
the open row buffer (`c.C >= 0` is vacuous for a `Nat` column). -/
def updateRow (row : Option (List Cell)) (recData : List Nat) (recID : Nat)
    (st : Option (List String)) (rowNum : Int) : Option (List Cell) :=
  match row with
  | none => none
  | some cells =>
    match parseCellRecord recData recID st with
    | .error _ => some cells
    | .ok c =>
      if c.C < cells.length then some (cells.set c.C ⟨rowNum, c.C, c.V, c.Style⟩)
      else some cells

/-- Main loop of `Worksheet.Rows` (current revision, lines 863–933), started
at `pos` with the open-row state (`rowNum`, `row`) and a consumer.  Returns
the sequence of rows delivered to `yield` and the final `ws.Err`.  The
`stopped` flag needs no state: it is set only in the flush branch and the
iterator returns immediately afterwards.  In the ROW branch, a `row = none`
skips the flush-and-maybe-stop step, modelled by forcing the yield result to
`true` without consuming the budget. -/
def rowsGo (data : List Nat) (st : Option (List String)) (dim : Dimension) (sparse : Bool) :
    Nat → Int → Option (List Cell) → Option Nat → List (List Cell) × Option String
  | pos, rowNum, row, budget =>
    match h : Record.next data pos with
    | .error e => (flushAll row, errOf e)
    | .ok t =>
      let recID := t.1
      let recData := t.2.1
      let p2 := t.2.2
      if recID = Biff12.Row then
        let pr := (parseRowRecord recData).toOption
        if pr = none then rowsGo data st dim sparse p2 rowNum row budget
        else if ((pr.getD 0 : Nat) : Int) = rowNum then
          rowsGo data st dim sparse p2 rowNum row budget
        else
          let r : Int := (pr.getD 0 : Nat)
          let y := if row = none then (true, budget) else doYield budget
          if y.1 then
            let f :=
              if sparse then (([] : List (List Cell)), y.2, false)
              else fillRows dim (r - 1 - rowNum).toNat rowNum y.2
            if f.2.2 then (flushAll row ++ f.1, none)
            else
              let rest := rowsGo data st dim sparse p2 r (some (makeEmptyRow r dim)) f.2.1
              (flushAll row ++ f.1 ++ rest.1, rest.2)
          else (flushAll row, none)
      else if Biff12.Blank ≤ recID ∧ recID ≤ Biff12.FormulaBoolErr then
        rowsGo data st dim sparse p2 rowNum (updateRow row recData recID st rowNum) budget
      else if recID = Biff12.SheetDataEnd then (flushAll row, none)
      else rowsGo data st dim sparse p2 rowNum row budget
termination_by pos _ _ _ => data.length - pos
decreasing_by
  all_goals
    (have hb := Record.next_bounds data pos t.1 t.2.1 t.2.2 h
     omega)

/-- The scanner state of a worksheet that `Rows` reads: the raw part, the
pass-1 results it consults, the shared-string table, and the mutable `Err`
field. -/
structure WS where
  data : List Nat
  dataOffset : Nat
  hasSheetData : Bool
  dimension : Option Dimension
  stringTable : Option (List String)
  err : Option String
deriving DecidableEq, Repr

/-- One full run of the `Worksheet.Rows(sparse)` iterator against a consumer
pulling at most `budget` rows: resets `ws.Err`, yields nothing when no
SHEETDATA record was found, otherwise seeks to the recorded offset (a
`bytes.Reader` seek to a non-negative offset cannot fail) and runs the row
loop.  Returns the delivered rows and the post-run scanner. -/
def rowsRun (ws : WS) (sparse : Bool) (budget : Option Nat) : List (List Cell) × WS :=
  if ws.hasSheetData = false then ([], { ws with err := none })
  else
    let r := rowsGo ws.data ws.stringTable (effectiveDim ws.dimension) sparse
        ws.dataOffset (-1) none budget
    (r.1, { ws with err := r.2 })

end Worksheet

namespace Worksheet

/-- C7: Stopping pass-2 row iteration after any prefix of `n` rows leaves the
scanner valid, and a subsequent uninterrupted `Rows` run on the same scanner
(which reseeks to the pass-1 offset) delivers exactly the rows — and the same
final state — of an uninterrupted run on the original scanner: the early stop
has no effect on later runs. -/
theorem rows_restart_after_early_stop (ws : WS) (sparse : Bool) (n : Nat) :
    rowsRun (rowsRun ws sparse (some n)).2 sparse none = rowsRun ws sparse none := by
  have h1 : ∃ e, (rowsRun ws sparse (some n)).2 = { ws with err := e } := by
    rw [rowsRun]
    by_cases hs : ws.hasSheetData = false
    · rw [if_pos hs]
      exact ⟨none, rfl⟩
    · rw [if_neg hs]
      exact ⟨_, rfl⟩
  obtain ⟨e, he⟩ := h1
  rw [he]
  rfl

/-- C8: A ROW marker whose decoded index equals the currently open row index
is ignored: iteration continues exactly as if the marker were not present —
no flush of the open row, no filler rows, no reset of decoded cells. -/
theorem duplicate_row_marker_is_ignored (data : List Nat) (st : Option (List String))
    (dim : Dimension) (sparse : Bool) (pos : Nat) (rowNum : Int)
    (row : Option (List Cell)) (budget : Option Nat) (payload : List Nat) (p2 r : Nat)
    (h : Record.next data pos = .ok (Biff12.Row, payload, p2))
    (hr : parseRowRecord payload = .ok r) (hdup : (r : Int) = rowNum) :
    rowsGo data st dim sparse pos rowNum row budget =
      rowsGo data st dim sparse p2 rowNum row budget := by
  conv_lhs => rw [rowsGo]
  split
  · rename_i e heq
    rw [h] at heq
    simp at heq
  · rename_i t heq
    rw [h] at heq
    injection heq with h2
    subst h2
    dsimp only
    rw [if_pos (show Biff12.Row = Biff12.Row from rfl), hr]
    simp only [Except.toOption, Option.getD]
    rw [if_neg (by simp), if_pos hdup]

/-- C8 witness: a concrete duplicate ROW marker (index 0, equal to the open
row) at the head of the stream is skipped verbatim. -/
theorem duplicate_row_marker_is_ignored_witness :
    rowsGo [0, 4, 0, 0, 0, 0] none ⟨0, 0, 1, 1⟩ true 0 0
        (some [⟨0, 0, CellVal.nil, 0⟩]) none =
      rowsGo [0, 4, 0, 0, 0, 0] none ⟨0, 0, 1, 1⟩ true 6 0
        (some [⟨0, 0, CellVal.nil, 0⟩]) none :=
  duplicate_row_marker_is_ignored [0, 4, 0, 0, 0, 0] none ⟨0, 0, 1, 1⟩ true 0 0
    (some [⟨0, 0, CellVal.nil, 0⟩]) none [0, 0, 0, 0] 6 0 (by rfl) (by rfl) rfl

end Worksheet

namespace Worksheet

/-- Modelled from the spec: a worksheet stream is "truncated after the
start-of-row-data (SheetData) marker but before the end-of-row-data
(SheetDataEnd) marker" when scanning its records — tracking whether the scan
is inside an open SheetData block — hits a read failure (clean EOF or
corruption) while the flag is set.  `decodeEndsOpen data pos inSheet`
returns that flag at the first record-read failure. -/
def decodeEndsOpen (data : List Nat) : Nat → Bool → Bool
  | pos, inSheet =>
    match h : Record.next data pos with
    | .error _ => inSheet
    | .ok t =>
      if inSheet then
        if t.1 = Biff12.SheetDataEnd then decodeEndsOpen data t.2.2 false
        else decodeEndsOpen data t.2.2 true
      else
        if t.1 = Biff12.SheetData then decodeEndsOpen data t.2.2 true
        else decodeEndsOpen data t.2.2 false
termination_by pos _ => data.length - pos
decreasing_by
  all_goals
    (have hb := Record.next_bounds data pos t.1 t.2.1 t.2.2 h
     omega)

/-- Modelled from the spec: the value records the byte stream "stores" at
row/column coordinates.  Scanning the record stream with the same open-row
discipline as `Rows` (ROW markers open a row, duplicates ignored, cell
records outside an open row ignored), each successfully decoded cell record
contributes the placement `(rowNum, column, value)` — with no row-width
filtering, since the claim speaks about the underlying stream. -/
def placementsGo (data : List Nat) (st : Option (List String)) :
    Nat → Int → Bool → List (Int × Nat × CellVal)
  | pos, rowNum, rowOpen =>
    match h : Record.next data pos with
    | .error _ => []
    | .ok t =>
      let recID := t.1
      let recData := t.2.1
      let p2 := t.2.2
      if recID = Biff12.Row then
        let pr := (parseRowRecord recData).toOption
        if pr = none then placementsGo data st p2 rowNum rowOpen
        else if ((pr.getD 0 : Nat) : Int) = rowNum then placementsGo data st p2 rowNum rowOpen
        else placementsGo data st p2 ((pr.getD 0 : Nat) : Int) true
      else if Biff12.Blank ≤ recID ∧ recID ≤ Biff12.FormulaBoolErr then
        if rowOpen then
          match parseCellRecord recData recID st with
          | .error _ => placementsGo data st p2 rowNum rowOpen
          | .ok c => (rowNum, c.C, c.V) :: placementsGo data st p2 rowNum rowOpen
        else placementsGo data st p2 rowNum rowOpen
      else if recID = Biff12.SheetDataEnd then []
      else placementsGo data st p2 rowNum rowOpen
termination_by pos _ _ => data.length - pos
decreasing_by
  all_goals
    (have hb := Record.next_bounds data pos t.1 t.2.1 t.2.2 h
     omega)

/-- One-step equation for `skipSheetData` (its `match h :` is only for
termination, so the step is a plain match on `Record.next`). -/
theorem skipSheetData_step (data : List Nat) (pos : Nat) :
    skipSheetData data pos =
      match Record.next data pos with
      | .error e => .error e
      | .ok (recID, _, p2) =>
        if recID = Biff12.SheetDataEnd then .ok p2
        else skipSheetData data p2 := by
  conv_lhs => rw [skipSheetData]
  split
  · rename_i e heq
    rw [heq]
  · rename_i recID rd p2 heq
    rw [heq]

/-- One-step equation for `parseGo`. -/
theorem parseGo_step (data : List Nat) (hasRels : Bool) (pos : Nat) (m : Meta) :
    parseGo data hasRels pos m =
      match Record.next data pos with
      | .error .eof => .ok m
      | .error (.corrupt msg) => .error ("worksheet parse: " ++ msg)
      | .ok (recID, recData, p2) =>
        if recID = Biff12.Dimension then
          match parseDimensionRecord recData with
          | .ok dim => parseGo data hasRels p2 { m with dimension := some dim }
          | .error _ => parseGo data hasRels p2 m
        else if recID = Biff12.Col then
          match parseColRecord recData with
          | .ok col => parseGo data hasRels p2 { m with cols := m.cols ++ [col] }
          | .error _ => parseGo data hasRels p2 m
        else if recID = Biff12.SheetData then
          match skipSheetData data p2 with
          | .error _ => .error "worksheet: reading SheetData records: stream truncated or corrupt"
          | .ok p3 => parseGo data hasRels p3 { m with dataOffset := p2, hasSheetData := true }
        else if recID = Biff12.MergeCell then
          match parseMergeCellRecord recData with
          | .ok ma => parseGo data hasRels p2 { m with mergeCells := m.mergeCells ++ [ma] }
          | .error _ => parseGo data hasRels p2 m
        else if recID = Biff12.Hyperlink then
          if hasRels then
            match parseHyperlinkRecord recData with
            | .ok hl => parseGo data hasRels p2 { m with hyperlinks := m.hyperlinks ++ hyperlinkEntries hl }
            | .error _ => parseGo data hasRels p2 m
          else parseGo data hasRels p2 m
        else parseGo data hasRels p2 m := by
  conv_lhs => rw [parseGo]
  split
  · rename_i heq
    rw [heq]
  · rename_i msg heq
    rw [heq]
  · rename_i recID recData p2 heq
    rw [heq]
    by_cases h3 : recID = Biff12.SheetData
    · subst h3
      dsimp only
      simp only [if_neg (show ¬Biff12.SheetData = Biff12.Dimension from by decide),
                 if_neg (show ¬Biff12.SheetData = Biff12.Col from by decide),
                 eq_self_iff_true, if_true]
      split
      · rename_i heq2
        rw [heq2]
      · rename_i p3 heq2
        rw [heq2]
    · simp only [if_neg h3]

/-- One-step equation for `rowsGo`. -/
theorem rowsGo_step (data : List Nat) (st : Option (List String)) (dim : Dimension)
    (sparse : Bool) (pos : Nat) (rowNum : Int) (row : Option (List Cell))
    (budget : Option Nat) :
    rowsGo data st dim sparse pos rowNum row budget =
      match Record.next data pos with
      | .error e => (flushAll row, errOf e)
      | .ok t =>
        if t.1 = Biff12.Row then
          let pr := (parseRowRecord t.2.1).toOption
          if pr = none then rowsGo data st dim sparse t.2.2 rowNum row budget
          else if ((pr.getD 0 : Nat) : Int) = rowNum then
            rowsGo data st dim sparse t.2.2 rowNum row budget
          else
            let r : Int := (pr.getD 0 : Nat)
            let y := if row = none then (true, budget) else doYield budget
            if y.1 then
              let f :=
                if sparse then (([] : List (List Cell)), y.2, false)
                else fillRows dim (r - 1 - rowNum).toNat rowNum y.2
              if f.2.2 then (flushAll row ++ f.1, none)
              else
                let rest := rowsGo data st dim sparse t.2.2 r (some (makeEmptyRow r dim)) f.2.1
                (flushAll row ++ f.1 ++ rest.1, rest.2)
            else (flushAll row, none)
        else if Biff12.Blank ≤ t.1 ∧ t.1 ≤ Biff12.FormulaBoolErr then
          rowsGo data st dim sparse t.2.2 rowNum (updateRow row t.2.1 t.1 st rowNum) budget
        else if t.1 = Biff12.SheetDataEnd then (flushAll row, none)
        else rowsGo data st dim sparse t.2.2 rowNum row budget := by
  conv_lhs => rw [rowsGo]
  split
  · rename_i e heq
    rw [heq]
  · rename_i t heq
    rw [heq]

/-- One-step equation for `decodeEndsOpen`. -/
theorem decodeEndsOpen_step (data : List Nat) (pos : Nat) (inSheet : Bool) :
    decodeEndsOpen data pos inSheet =
      match Record.next data pos with
      | .error _ => inSheet
      | .ok t =>
        if inSheet then
          if t.1 = Biff12.SheetDataEnd then decodeEndsOpen data t.2.2 false
          else decodeEndsOpen data t.2.2 true
        else
          if t.1 = Biff12.SheetData then decodeEndsOpen data t.2.2 true
          else decodeEndsOpen data t.2.2 false := by
  conv_lhs => rw [decodeEndsOpen]
  split
  · rename_i e heq
    rw [heq]
  · rename_i t heq
    rw [heq]

/-- One-step equation for `placementsGo`. -/
theorem placementsGo_step (data : List Nat) (st : Option (List String)) (pos : Nat)
    (rowNum : Int) (rowOpen : Bool) :
    placementsGo data st pos rowNum rowOpen =
      match Record.next data pos with
      | .error _ => []
      | .ok t =>
        if t.1 = Biff12.Row then
          let pr := (parseRowRecord t.2.1).toOption
          if pr = none then placementsGo data st t.2.2 rowNum rowOpen
          else if ((pr.getD 0 : Nat) : Int) = rowNum then placementsGo data st t.2.2 rowNum rowOpen
          else placementsGo data st t.2.2 ((pr.getD 0 : Nat) : Int) true
        else if Biff12.Blank ≤ t.1 ∧ t.1 ≤ Biff12.FormulaBoolErr then
          if rowOpen then
            match parseCellRecord t.2.1 t.1 st with
            | .error _ => placementsGo data st t.2.2 rowNum rowOpen
            | .ok c => (rowNum, c.C, c.V) :: placementsGo data st t.2.2 rowNum rowOpen
          else placementsGo data st t.2.2 rowNum rowOpen
        else if t.1 = Biff12.SheetDataEnd then []
        else placementsGo data st t.2.2 rowNum rowOpen := by
  conv_lhs => rw [placementsGo]
  split
  · rename_i e heq
    rw [heq]
  · rename_i t heq
    rw [heq]

end Worksheet

namespace Worksheet

/-- If a stream decodes to an open SheetData block and the skip loop
nevertheless succeeds, the remainder (after the matching SHEETDATAEND) still
decodes to an open SheetData block. -/
theorem decodeEndsOpen_skip (data : List Nat) :
    ∀ n pos, data.length - pos = n → decodeEndsOpen data pos true = true →
      ∀ p3, skipSheetData data pos = .ok p3 → decodeEndsOpen data p3 false = true := by
  intro n
  induction n using Nat.strong_induction_on with
  | _ n ih =>
    intro pos hn hdec p3 hsk
    rw [skipSheetData_step] at hsk
    rw [decodeEndsOpen_step] at hdec
    cases hnx : Record.next data pos with
    | error e =>
      rw [hnx] at hsk
      simp at hsk
    | ok t =>
      obtain ⟨recID, rd, p2⟩ := t
      rw [hnx] at hsk hdec
      dsimp only at hsk hdec
      rw [if_pos rfl] at hdec
      have hb := Record.next_bounds data pos recID rd p2 hnx
      by_cases hid : recID = Biff12.SheetDataEnd
      · rw [if_pos hid] at hsk hdec
        cases hsk
        exact hdec
      · rw [if_neg hid] at hsk hdec
        exact ih (data.length - p2) (by omega) p2 rfl hdec p3 hsk

/-- A stream whose record decode ends inside an open SheetData block makes
the pass-1 scan fail from any position and any accumulated state. -/
theorem decode_open_parse_errors (data : List Nat) (hasRels : Bool) :
    ∀ n pos, data.length - pos = n → ∀ m m', decodeEndsOpen data pos false = true →
      parseGo data hasRels pos m ≠ .ok m' := by
  intro n
  induction n using Nat.strong_induction_on with
  | _ n ih =>
    intro pos hn m m' hdec hok
    rw [parseGo_step] at hok
    rw [decodeEndsOpen_step] at hdec
    cases hnx : Record.next data pos with
    | error e =>
      rw [hnx] at hdec
      simp at hdec
    | ok t =>
      obtain ⟨recID, rd, p2⟩ := t
      rw [hnx] at hok hdec
      dsimp only at hok hdec
      rw [if_neg (by simp)] at hdec
      have hb := Record.next_bounds data pos recID rd p2 hnx
      by_cases h3 : recID = Biff12.SheetData
      · rw [if_pos h3] at hdec
        rw [if_neg (by rw [h3]; decide), if_neg (by rw [h3]; decide), if_pos h3] at hok
        cases hsk : skipSheetData data p2 with
        | error e2 =>
          rw [hsk] at hok
          simp at hok
        | ok p3 =>
          rw [hsk] at hok
          have hsb := skipSheetData_bounds data _ p2 p3 rfl hsk
          have hdec3 := decodeEndsOpen_skip data _ p2 rfl hdec p3 hsk
          exact ih (data.length - p3) (by omega) p3 rfl _ m' hdec3 hok
      · rw [if_neg h3] at hdec
        have hrec : ∀ m0, parseGo data hasRels p2 m0 ≠ .ok m' :=
          fun m0 => ih (data.length - p2) (by omega) p2 rfl m0 m' hdec
        by_cases h1 : recID = Biff12.Dimension
        · rw [if_pos h1] at hok
          split at hok <;> exact hrec _ hok
        · rw [if_neg h1] at hok
          by_cases h2c : recID = Biff12.Col
          · rw [if_pos h2c] at hok
            split at hok <;> exact hrec _ hok
          · rw [if_neg h2c, if_neg h3] at hok
            by_cases h4 : recID = Biff12.MergeCell
            · rw [if_pos h4] at hok
              split at hok <;> exact hrec _ hok
            · rw [if_neg h4] at hok
              by_cases h5 : recID = Biff12.Hyperlink
              · rw [if_pos h5] at hok
                cases hasRels with
                | true =>
                  rw [if_pos rfl] at hok
                  split at hok <;> exact hrec _ hok
                | false =>
                  rw [if_neg (by simp)] at hok
                  exact hrec _ hok
              · rw [if_neg h5] at hok
                exact hrec _ hok

end Worksheet

namespace Worksheet

/-- C2: A worksheet stream that is truncated after a SHEETDATA marker but
before the matching SHEETDATAEND — i.e. whose record decode ends while a
SheetData block is open — makes the pass-1 pre-scan fail for the whole
sheet; it never returns success as if the stream had ended normally. -/
theorem parse_truncated_sheetdata_errors (data : List Nat) (hasRels : Bool)
    (h : decodeEndsOpen data 0 false = true) (m' : Meta) :
    parse data hasRels ≠ .ok m' :=
  decode_open_parse_errors data hasRels data.length 0 (by omega) initMeta m' h

/-- C2 witness: the 3-byte stream consisting of a bare SHEETDATA record
(ID `0x0191` encoded as `0x91 0x01`, length 0) and nothing after it is
truncated inside SheetData, and `parse` indeed rejects it. -/
theorem parse_truncated_sheetdata_errors_witness :
    parse [0x91, 1, 0] false ≠ .ok initMeta :=
  parse_truncated_sheetdata_errors [0x91, 1, 0] false
    (by
      rw [decodeEndsOpen_step,
          show Record.next [0x91, 1, 0] 0 = Except.ok (401, [], 3) from rfl]
      dsimp only
      rw [if_neg (by simp), if_pos (by decide)]
      rw [decodeEndsOpen_step,
          show Record.next [0x91, 1, 0] 3 = Except.error Record.NextErr.eof from rfl])
    initMeta

end Worksheet

namespace Worksheet

/-- Branch evaluation: a `Next` failure ends the row loop with the trailing
flush and the mapped error. -/
theorem rowsGo_eval_err (data : List Nat) (st : Option (List String)) (dim : Dimension)
    (sparse : Bool) (pos : Nat) (rowNum : Int) (row : Option (List Cell))
    (budget : Option Nat) (e : Record.NextErr)
    (hn : Record.next data pos = .error e) :
    rowsGo data st dim sparse pos rowNum row budget = (flushAll row, errOf e) := by
  rw [rowsGo_step, hn]

/-- Branch evaluation: a SHEETDATAEND record ends the row loop cleanly. -/
theorem rowsGo_eval_end (data : List Nat) (st : Option (List String)) (dim : Dimension)
    (sparse : Bool) (pos : Nat) (rowNum : Int) (row : Option (List Cell))
    (budget : Option Nat) (recID : Nat) (rd : List Nat) (p2 : Nat)
    (hn : Record.next data pos = .ok (recID, rd, p2)) (hid : recID = Biff12.SheetDataEnd) :
    rowsGo data st dim sparse pos rowNum row budget = (flushAll row, none) := by
  subst hid
  rw [rowsGo_step, hn]
  dsimp only
  rw [if_neg (by decide), if_neg (by decide), if_pos rfl]

/-- Branch evaluation: a ROW record with a fresh index, under an unbounded
consumer in sparse mode, flushes the open row and recurses with row `r0`
open. -/
theorem rowsGo_eval_row_sparse (data : List Nat) (st : Option (List String))
    (dim : Dimension) (pos : Nat) (rowNum : Int) (row : Option (List Cell))
    (recID : Nat) (rd : List Nat) (p2 r0 : Nat)
    (hn : Record.next data pos = .ok (recID, rd, p2)) (hid : recID = Biff12.Row)
    (hr : parseRowRecord rd = .ok r0) (hne : ¬ ((r0 : Nat) : Int) = rowNum) :
    rowsGo data st dim true pos rowNum row none =
      (flushAll row ++ (rowsGo data st dim true p2 r0 (some (makeEmptyRow r0 dim)) none).1,
       (rowsGo data st dim true p2 r0 (some (makeEmptyRow r0 dim)) none).2) := by
  subst hid
  rw [rowsGo_step, hn]
  dsimp only
  rw [if_pos rfl, hr]
  dsimp only [Except.toOption, Option.getD]
  rw [if_neg (by simp), if_neg hne,
      show (if row = none then ((true : Bool), (none : Option Nat)) else doYield none) =
        (true, none) from by split <;> rfl]
  dsimp only
  rw [if_pos rfl, if_neg (by simp)]
  simp

/-- Branch evaluation: a cell-range record updates the open row via
`updateRow` and continues. -/
theorem rowsGo_eval_cell (data : List Nat) (st : Option (List String)) (dim : Dimension)
    (sparse : Bool) (pos : Nat) (rowNum : Int) (row : Option (List Cell))
    (budget : Option Nat) (recID : Nat) (rd : List Nat) (p2 : Nat)
    (hn : Record.next data pos = .ok (recID, rd, p2))
    (hid : Biff12.Blank ≤ recID ∧ recID ≤ Biff12.FormulaBoolErr) :
    rowsGo data st dim sparse pos rowNum row budget =
      rowsGo data st dim sparse p2 rowNum (updateRow row rd recID st rowNum) budget := by
  rw [rowsGo_step, hn]
  dsimp only
  rw [if_neg (fun h => by rw [h] at hid; exact absurd hid.1 (by decide)), if_pos hid]

/-- Branch evaluation for `placementsGo`: `Next` failure yields no further
placements. -/
theorem placementsGo_eval_err (data : List Nat) (st : Option (List String)) (pos : Nat)
    (rowNum : Int) (rowOpen : Bool) (e : Record.NextErr)
    (hn : Record.next data pos = .error e) :
    placementsGo data st pos rowNum rowOpen = [] := by
  rw [placementsGo_step, hn]

/-- Branch evaluation for `placementsGo`: SHEETDATAEND stops the scan. -/
theorem placementsGo_eval_end (data : List Nat) (st : Option (List String)) (pos : Nat)
    (rowNum : Int) (rowOpen : Bool) (recID : Nat) (rd : List Nat) (p2 : Nat)
    (hn : Record.next data pos = .ok (recID, rd, p2)) (hid : recID = Biff12.SheetDataEnd) :
    placementsGo data st pos rowNum rowOpen = [] := by
  subst hid
  rw [placementsGo_step, hn]
  dsimp only
  rw [if_neg (by decide), if_neg (by decide), if_pos rfl]

/-- Branch evaluation for `placementsGo`: a fresh ROW marker opens its row. -/
theorem placementsGo_eval_row (data : List Nat) (st : Option (List String)) (pos : Nat)
    (rowNum : Int) (rowOpen : Bool) (recID : Nat) (rd : List Nat) (p2 r0 : Nat)
    (hn : Record.next data pos = .ok (recID, rd, p2)) (hid : recID = Biff12.Row)
    (hr : parseRowRecord rd = .ok r0) (hne : ¬ ((r0 : Nat) : Int) = rowNum) :
    placementsGo data st pos rowNum rowOpen = placementsGo data st p2 (r0 : Nat) true := by
  subst hid
  rw [placementsGo_step, hn]
  dsimp only
  rw [if_pos rfl, hr]
  dsimp only [Except.toOption, Option.getD]
  rw [if_neg (by simp), if_neg hne]

/-- Branch evaluation for `placementsGo`: a decodable cell record inside an
open row contributes its placement. -/
theorem placementsGo_eval_cell (data : List Nat) (st : Option (List String)) (pos : Nat)
    (rowNum : Int) (recID : Nat) (rd : List Nat) (p2 : Nat) (c : InternalCell)
    (hn : Record.next data pos = .ok (recID, rd, p2))
    (hid : Biff12.Blank ≤ recID ∧ recID ≤ Biff12.FormulaBoolErr)
    (hc : parseCellRecord rd recID st = .ok c) :
    placementsGo data st pos rowNum true =
      (rowNum, c.C, c.V) :: placementsGo data st p2 rowNum true := by
  rw [placementsGo_step, hn]
  dsimp only
  rw [if_neg (fun h => by rw [h] at hid; exact absurd hid.1 (by decide)), if_pos hid,
      if_pos rfl, hc]

end Worksheet

namespace Worksheet

/-- Branch evaluation for the skip loop: a non-SHEETDATAEND record is
skipped. -/
theorem skipSheetData_eval_other (data : List Nat) (pos : Nat) (recID : Nat)
    (rd : List Nat) (p2 : Nat) (hn : Record.next data pos = .ok (recID, rd, p2))
    (hid : ¬ recID = Biff12.SheetDataEnd) :
    skipSheetData data pos = skipSheetData data p2 := by
  rw [skipSheetData_step, hn]
  dsimp only
  rw [if_neg hid]

/-- Branch evaluation for the skip loop: SHEETDATAEND completes it. -/
theorem skipSheetData_eval_end (data : List Nat) (pos : Nat) (recID : Nat)
    (rd : List Nat) (p2 : Nat) (hn : Record.next data pos = .ok (recID, rd, p2))
    (hid : recID = Biff12.SheetDataEnd) :
    skipSheetData data pos = .ok p2 := by
  rw [skipSheetData_step, hn]
  dsimp only
  rw [if_pos hid]

/-- Branch evaluation for the pre-scan: clean EOF ends it successfully. -/
theorem parseGo_eval_eof (data : List Nat) (hasRels : Bool) (pos : Nat) (m : Meta)
    (hn : Record.next data pos = .error .eof) :
    parseGo data hasRels pos m = .ok m := by
  rw [parseGo_step, hn]

/-- Branch evaluation for the pre-scan: a decodable DIMENSION record is
stored. -/
theorem parseGo_eval_dim (data : List Nat) (hasRels : Bool) (pos : Nat) (m : Meta)
    (recID : Nat) (rd : List Nat) (p2 : Nat) (dim : Dimension)
    (hn : Record.next data pos = .ok (recID, rd, p2)) (hid : recID = Biff12.Dimension)
    (hd : parseDimensionRecord rd = .ok dim) :
    parseGo data hasRels pos m = parseGo data hasRels p2 { m with dimension := some dim } := by
  subst hid
  rw [parseGo_step, hn]
  dsimp only
  rw [if_pos rfl, hd]

/-- Branch evaluation for the pre-scan: SHEETDATA records the offset and
flag, and continues after the skip loop. -/
theorem parseGo_eval_sheetdata (data : List Nat) (hasRels : Bool) (pos : Nat) (m : Meta)
    (recID : Nat) (rd : List Nat) (p2 p3 : Nat)
    (hn : Record.next data pos = .ok (recID, rd, p2)) (hid : recID = Biff12.SheetData)
    (hsk : skipSheetData data p2 = .ok p3) :
    parseGo data hasRels pos m =
      parseGo data hasRels p3 { m with dataOffset := p2, hasSheetData := true } := by
  subst hid
  rw [parseGo_step, hn]
  dsimp only
  rw [if_neg (by decide), if_neg (by decide), if_pos rfl, hsk]

/-- Branch evaluation for the pre-scan: a decodable MERGECELL record is
appended. -/
theorem parseGo_eval_merge (data : List Nat) (hasRels : Bool) (pos : Nat) (m : Meta)
    (recID : Nat) (rd : List Nat) (p2 : Nat) (ma : MergeArea)
    (hn : Record.next data pos = .ok (recID, rd, p2)) (hid : recID = Biff12.MergeCell)
    (hm : parseMergeCellRecord rd = .ok ma) :
    parseGo data hasRels pos m =
      parseGo data hasRels p2 { m with mergeCells := m.mergeCells ++ [ma] } := by
  subst hid
  rw [parseGo_step, hn]
  dsimp only
  rw [if_neg (by decide), if_neg (by decide), if_neg (by decide), if_pos rfl, hm]

end Worksheet

namespace Worksheet

/-- `makeEmptyRow` always builds exactly `rowWidth dim` cells. -/
theorem makeEmptyRow_length (rowNum : Int) (dim : Dimension) :
    (makeEmptyRow rowNum dim).length = rowWidth dim := by
  simp [makeEmptyRow]

/-- Every filler row delivered by the dense-mode loop has the full width. -/
theorem fillRows_mem_length (dim : Dimension) :
    ∀ k rn b r, r ∈ (fillRows dim k rn b).1 → r.length = rowWidth dim := by
  intro k
  induction k with
  | zero =>
    intro rn b r hr
    simp [fillRows] at hr
  | succ k ih =>
    intro rn b r hr
    rw [fillRows] at hr
    dsimp only at hr
    by_cases hy : (doYield b).1 = true
    · rw [if_pos hy] at hr
      rcases List.mem_cons.mp hr with h | h
      · rw [h]
        exact makeEmptyRow_length _ dim
      · exact ih _ _ r h
    · rw [if_neg hy] at hr
      rcases List.mem_cons.mp hr with h | h
      · rw [h]
        exact makeEmptyRow_length _ dim
      · exact absurd h (List.not_mem_nil r)

/-- `updateRow` preserves the full-width invariant of the open row buffer. -/
theorem updateRow_length_inv (dim : Dimension) (row : Option (List Cell))
    (rd : List Nat) (recID : Nat) (st : Option (List String)) (rowNum : Int)
    (hp : ∀ cells, row = some cells → cells.length = rowWidth dim) :
    ∀ cells2, updateRow row rd recID st rowNum = some cells2 →
      cells2.length = rowWidth dim := by
  intro cells2 h
  cases row with
  | none => simp [updateRow] at h
  | some cells =>
    have hc := hp cells rfl
    rw [updateRow] at h
    cases hpc : parseCellRecord rd recID st with
    | error e =>
      rw [hpc] at h
      injection h with h2
      rw [← h2]
      exact hc
    | ok c =>
      rw [hpc] at h
      dsimp only at h
      by_cases hlt : c.C < cells.length
      · rw [if_pos hlt] at h
        injection h with h2
        rw [← h2]
        rw [List.length_set]
        exact hc
      · rw [if_neg hlt] at h
        injection h with h2
        rw [← h2]
        exact hc

/-- The trailing flush only re-delivers the (full-width) open row. -/
theorem flushAll_mem_length (dim : Dimension) (row : Option (List Cell))
    (hp : ∀ cells, row = some cells → cells.length = rowWidth dim) :
    ∀ r ∈ flushAll row, r.length = rowWidth dim := by
  intro r hr
  cases row with
  | none => simp [flushAll] at hr
  | some cells =>
    simp [flushAll] at hr
    rw [hr]
    exact hp cells rfl

/-- Width invariant of the row loop: if the open row buffer (when present)
has the full width, every delivered row has the full width. -/
theorem rowsGo_mem_length (data : List Nat) (st : Option (List String)) (dim : Dimension)
    (sparse : Bool) :
    ∀ n pos rowNum row budget, data.length - pos = n →
      (∀ cells, row = some cells → cells.length = rowWidth dim) →
      ∀ r ∈ (rowsGo data st dim sparse pos rowNum row budget).1, r.length = rowWidth dim := by
  intro n
  induction n using Nat.strong_induction_on with
  | _ n ih =>
    intro pos rowNum row budget hn hrow r hr
    rw [rowsGo_step] at hr
    cases hnx : Record.next data pos with
    | error e =>
      rw [hnx] at hr
      exact flushAll_mem_length dim row hrow r hr
    | ok t =>
      obtain ⟨recID, rd, p2⟩ := t
      rw [hnx] at hr
      dsimp only at hr
      have hb := Record.next_bounds data pos recID rd p2 hnx
      have hnext : ∀ (rn2 : Int) row2 budget2,
          (∀ cells, row2 = some cells → cells.length = rowWidth dim) →
          ∀ r2 ∈ (rowsGo data st dim sparse p2 rn2 row2 budget2).1,
            r2.length = rowWidth dim :=
        fun rn2 row2 budget2 h2 r2 hr2 =>
          ih (data.length - p2) (by omega) p2 rn2 row2 budget2 rfl h2 r2 hr2
      by_cases hRow : recID = Biff12.Row
      · rw [if_pos hRow] at hr
        by_cases hpr : (parseRowRecord rd).toOption = none
        · rw [if_pos hpr] at hr
          exact hnext rowNum row budget hrow r hr
        · rw [if_neg hpr] at hr
          by_cases hdup : (((parseRowRecord rd).toOption.getD 0 : Nat) : Int) = rowNum
          · rw [if_pos hdup] at hr
            exact hnext rowNum row budget hrow r hr
          · rw [if_neg hdup] at hr
            have hmk : ∀ (rn2 : Int) cells, some (makeEmptyRow rn2 dim) = some cells →
                cells.length = rowWidth dim := fun rn2 cells hc => by
              injection hc with h2
              rw [← h2]
              exact makeEmptyRow_length rn2 dim
            by_cases hsp : sparse = true
            · subst hsp
              by_cases hrn : row = none
              · simp only [hrn, eq_self_iff_true, if_true] at hr
                try dsimp only at hr
                simp only [eq_self_iff_true, if_true, Bool.false_eq_true, if_false,
                           flushAll, List.nil_append] at hr
                exact hnext _ _ _ (hmk _) r hr
              · simp only [if_neg hrn] at hr
                by_cases hy : (doYield budget).1 = true
                · simp only [if_pos hy] at hr
                  try dsimp only at hr
                  simp only [eq_self_iff_true, if_true, Bool.false_eq_true, if_false,
                             List.append_nil, List.mem_append] at hr
                  rcases hr with hr | hr
                  · exact flushAll_mem_length dim row hrow r hr
                  · exact hnext _ _ _ (hmk _) r hr
                · simp only [if_neg hy] at hr
                  try dsimp only at hr
                  exact flushAll_mem_length dim row hrow r hr
            · rw [Bool.not_eq_true] at hsp
              subst hsp
              by_cases hrn : row = none
              · simp only [hrn, eq_self_iff_true, if_true, Bool.false_eq_true, if_false] at hr
                try dsimp only at hr
                by_cases hf : (fillRows dim
                    ((((parseRowRecord rd).toOption.getD 0 : Nat) : Int) - 1 - rowNum).toNat
                    rowNum budget).2.2 = true
                · simp only [if_pos hf, flushAll, List.nil_append] at hr
                  exact fillRows_mem_length dim _ _ _ r hr
                · simp only [if_neg hf, flushAll, List.nil_append, List.mem_append] at hr
                  rcases hr with hr | hr
                  · exact fillRows_mem_length dim _ _ _ r hr
                  · exact hnext _ _ _ (hmk _) r hr
              · simp only [if_neg hrn] at hr
                by_cases hy : (doYield budget).1 = true
                · simp only [if_pos hy, Bool.false_eq_true, if_false] at hr
                  try dsimp only at hr
                  by_cases hf : (fillRows dim
                      ((((parseRowRecord rd).toOption.getD 0 : Nat) : Int) - 1 - rowNum).toNat
                      rowNum (doYield budget).2).2.2 = true
                  · simp only [if_pos hf, List.mem_append] at hr
                    rcases hr with hr | hr
                    · exact flushAll_mem_length dim row hrow r hr
                    · exact fillRows_mem_length dim _ _ _ r hr
                  · simp only [if_neg hf, List.mem_append] at hr
                    rcases hr with (hr | hr) | hr
                    · exact flushAll_mem_length dim row hrow r hr
                    · exact fillRows_mem_length dim _ _ _ r hr
                    · exact hnext _ _ _ (hmk _) r hr
                · simp only [if_neg hy] at hr
                  try dsimp only at hr
                  exact flushAll_mem_length dim row hrow r hr
      · rw [if_neg hRow] at hr
        by_cases hCell : Biff12.Blank ≤ recID ∧ recID ≤ Biff12.FormulaBoolErr
        · rw [if_pos hCell] at hr
          exact hnext rowNum _ budget
            (fun cells2 h2 => updateRow_length_inv dim row rd recID st rowNum hrow cells2 h2)
            r hr
        · rw [if_neg hCell] at hr
          by_cases hEnd : recID = Biff12.SheetDataEnd
          · rw [if_pos hEnd] at hr
            exact flushAll_mem_length dim row hrow r hr
          · rw [if_neg hEnd] at hr
            exact hnext rowNum row budget hrow r hr

/-- `rowWidth` is the spec's `max(1, firstCol + width)`. -/
theorem rowWidth_eq_max (dim : Dimension) : rowWidth dim = max 1 (dim.C + dim.W) := by
  rw [rowWidth]
  split_ifs with h <;> omega

end Worksheet

namespace Worksheet

/-- C10 (implicit): every row yielded by `Rows` contains exactly
`max(1, firstCol + width)` cells, with `firstCol`/`width` from the decoded
dimension or the 1×1 fallback; and a successfully decoded cell record whose
column index is at least the open row's cell count is silently discarded —
the step consumes the record, changes no state, yields nothing and produces
no error.  A negative column index cannot occur: the decoded column is an
unsigned 32-bit value (a `Nat` here), so the `c.C >= 0` half of the guard is
vacuous. -/
theorem rows_width_and_discard :
    (∀ (ws : WS) (sparse : Bool) (budget : Option Nat),
      ∀ r ∈ (rowsRun ws sparse budget).1,
        r.length = max 1 ((effectiveDim ws.dimension).C + (effectiveDim ws.dimension).W)) ∧
    (∀ (data : List Nat) (st : Option (List String)) (dim : Dimension) (sparse : Bool)
      (pos : Nat) (rowNum : Int) (cells : List Cell) (budget : Option Nat)
      (recID : Nat) (rd : List Nat) (p2 : Nat) (c : InternalCell),
      Record.next data pos = .ok (recID, rd, p2) →
      Biff12.Blank ≤ recID ∧ recID ≤ Biff12.FormulaBoolErr →
      parseCellRecord rd recID st = .ok c →
      cells.length ≤ c.C →
      rowsGo data st dim sparse pos rowNum (some cells) budget =
        rowsGo data st dim sparse p2 rowNum (some cells) budget) := by
  constructor
  · intro ws sparse budget r hr
    rw [← rowWidth_eq_max]
    rw [rowsRun] at hr
    by_cases hs : ws.hasSheetData = false
    · rw [if_pos hs] at hr
      simp at hr
    · rw [if_neg hs] at hr
      dsimp only at hr
      exact rowsGo_mem_length ws.data ws.stringTable (effectiveDim ws.dimension) sparse
        (ws.data.length - ws.dataOffset) ws.dataOffset (-1) none budget rfl
        (fun cells hc => by simp at hc) r hr
  · intro data st dim sparse pos rowNum cells budget recID rd p2 c hn hid hc hge
    rw [rowsGo_eval_cell data st dim sparse pos rowNum (some cells) budget recID rd p2 hn hid]
    rw [updateRow, hc]
    dsimp only
    rw [if_neg (by omega)]

/-- C10 witness: a sheet with no DIMENSION record (1×1 fallback) and one ROW
record yields exactly one 1-cell row; and a FLOAT cell record addressed to
column 5 of a 1-cell open row is consumed with no state change. -/
theorem rows_width_and_discard_witness :
    ([(⟨0, 0, CellVal.nil, 0⟩ : Cell)]).length = max 1 ((effectiveDim none).C + (effectiveDim none).W) ∧
    rowsGo [5, 16, 5, 0, 0, 0, 0, 0, 0, 0, 0, 0, 0, 0, 0, 0, 240, 63] none ⟨0, 0, 1, 1⟩ true 0 0
        (some [⟨0, 0, CellVal.nil, 0⟩]) none =
      rowsGo [5, 16, 5, 0, 0, 0, 0, 0, 0, 0, 0, 0, 0, 0, 0, 0, 240, 63] none ⟨0, 0, 1, 1⟩ true 18 0
        (some [⟨0, 0, CellVal.nil, 0⟩]) none := by
  constructor
  · have hmem : [(⟨0, 0, CellVal.nil, 0⟩ : Cell)] ∈
        (rowsRun ⟨[0, 4, 0, 0, 0, 0, 0x92, 1, 0], 0, true, none, none, none⟩ true none).1 := by
      rw [rowsRun]
      rw [if_neg (by simp)]
      dsimp only
      rw [rowsGo_eval_row_sparse _ _ _ 0 (-1) none 0 [0, 0, 0, 0] 6 0 (by rfl) rfl (by rfl)
          (by decide)]
      simp only [Nat.cast_zero]
      rw [rowsGo_eval_end _ _ _ _ 6 0 (some (makeEmptyRow 0 (effectiveDim none))) none
          402 [] 9 (by rfl) (by rfl)]
      simp [flushAll, makeEmptyRow, rowWidth, effectiveDim]
      rfl
    exact rows_width_and_discard.1
      ⟨[0, 4, 0, 0, 0, 0, 0x92, 1, 0], 0, true, none, none, none⟩ true none
      [(⟨0, 0, CellVal.nil, 0⟩ : Cell)] hmem
  · exact rows_width_and_discard.2
      [5, 16, 5, 0, 0, 0, 0, 0, 0, 0, 0, 0, 0, 0, 0, 0, 240, 63] none ⟨0, 0, 1, 1⟩ true 0 0
      [⟨0, 0, CellVal.nil, 0⟩] none 5 [5, 0, 0, 0, 0, 0, 0, 0, 0, 0, 0, 0, 0, 0, 240, 63] 18
      ⟨5, CellVal.float 4607182418800017408, 0⟩ (by rfl) (by decide) (by rfl) (by decide)

end Worksheet

namespace Worksheet

/-- Modelled from the spec: `(r, c)` lies inside merge region `M`. -/
def inRegion (M : MergeArea) (r : Int) (c : Nat) : Prop :=
  (M.R : Int) ≤ r ∧ r < (M.R : Int) + (M.H : Int) ∧ M.C ≤ c ∧ c < M.C + M.W

instance (M : MergeArea) (r : Int) (c : Nat) : Decidable (inRegion M r c) := by
  unfold inRegion
  infer_instance

/-- Modelled from the spec: `(r, c)` is the top-left anchor of `M`. -/
def isAnchor (M : MergeArea) (r : Int) (c : Nat) : Prop :=
  r = (M.R : Int) ∧ c = M.C

instance (M : MergeArea) (r : Int) (c : Nat) : Decidable (isAnchor M r c) := by
  unfold isAnchor
  infer_instance

/-- Modelled from the spec: a stored placement respects the merge regions —
inside a region it may only sit at the anchor, with a non-empty value. -/
def GoodPl (merges : List MergeArea) (p : Int × Nat × CellVal) : Prop :=
  ∀ M ∈ merges, inRegion M p.1 p.2.1 → isAnchor M p.1 p.2.1 ∧ p.2.2 ≠ CellVal.nil

instance (merges : List MergeArea) (p : Int × Nat × CellVal) : Decidable (GoodPl merges p) := by
  unfold GoodPl
  infer_instance

/-- Modelled from the spec: some yielded row carries a non-empty value at
the anchor coordinate of `M`. -/
def anchorYielded (rows : List (List Cell)) (M : MergeArea) : Prop :=
  ∃ rc ∈ rows, ∃ cell ∈ rc, cell.R = (M.R : Int) ∧ cell.C = M.C ∧ cell.V ≠ CellVal.nil

instance (rows : List (List Cell)) (M : MergeArea) : Decidable (anchorYielded rows M) := by
  unfold anchorYielded
  infer_instance

/-- A row whose cells inside any merge region are empty except at anchors. -/
def SatRow (merges : List MergeArea) (cells : List Cell) : Prop :=
  ∀ cell ∈ cells, ∀ M ∈ merges, inRegion M cell.R cell.C →
    ¬ isAnchor M cell.R cell.C → cell.V = CellVal.nil

instance (merges : List MergeArea) (cells : List Cell) : Decidable (SatRow merges cells) := by
  unfold SatRow
  infer_instance

/-- Modelled from the spec: every non-anchor coordinate inside a merge
region is yielded as an empty (nil-valued) cell. -/
def satellitesNil (rows : List (List Cell)) (merges : List MergeArea) : Prop :=
  ∀ rc ∈ rows, SatRow merges rc

instance (rows : List (List Cell)) (merges : List MergeArea) :
    Decidable (satellitesNil rows merges) := by
  unfold satellitesNil
  infer_instance

/-- Branch evaluation: a ROW record that fails to decode or repeats the open
row index is skipped. -/
theorem rowsGo_eval_rowskip (data : List Nat) (st : Option (List String)) (dim : Dimension)
    (sparse : Bool) (pos : Nat) (rowNum : Int) (row : Option (List Cell))
    (budget : Option Nat) (recID : Nat) (rd : List Nat) (p2 : Nat)
    (hn : Record.next data pos = .ok (recID, rd, p2)) (hid : recID = Biff12.Row)
    (hskip : (parseRowRecord rd).toOption = none ∨
      (((parseRowRecord rd).toOption.getD 0 : Nat) : Int) = rowNum) :
    rowsGo data st dim sparse pos rowNum row budget =
      rowsGo data st dim sparse p2 rowNum row budget := by
  subst hid
  rw [rowsGo_step, hn]
  dsimp only
  rw [if_pos rfl]
  rcases hskip with h | h
  · rw [if_pos h]
  · by_cases hpr : (parseRowRecord rd).toOption = none
    · rw [if_pos hpr]
    · rw [if_neg hpr, if_pos h]

/-- Branch evaluation: any other record type is skipped by the row loop. -/
theorem rowsGo_eval_other (data : List Nat) (st : Option (List String)) (dim : Dimension)
    (sparse : Bool) (pos : Nat) (rowNum : Int) (row : Option (List Cell))
    (budget : Option Nat) (recID : Nat) (rd : List Nat) (p2 : Nat)
    (hn : Record.next data pos = .ok (recID, rd, p2)) (h1 : ¬ recID = Biff12.Row)
    (h2 : ¬ (Biff12.Blank ≤ recID ∧ recID ≤ Biff12.FormulaBoolErr))
    (h3 : ¬ recID = Biff12.SheetDataEnd) :
    rowsGo data st dim sparse pos rowNum row budget =
      rowsGo data st dim sparse p2 rowNum row budget := by
  rw [rowsGo_step, hn]
  dsimp only
  rw [if_neg h1, if_neg h2, if_neg h3]

/-- Branch evaluation for `placementsGo`: skipped ROW records. -/
theorem placementsGo_eval_rowskip (data : List Nat) (st : Option (List String)) (pos : Nat)
    (rowNum : Int) (rowOpen : Bool) (recID : Nat) (rd : List Nat) (p2 : Nat)
    (hn : Record.next data pos = .ok (recID, rd, p2)) (hid : recID = Biff12.Row)
    (hskip : (parseRowRecord rd).toOption = none ∨
      (((parseRowRecord rd).toOption.getD 0 : Nat) : Int) = rowNum) :
    placementsGo data st pos rowNum rowOpen = placementsGo data st p2 rowNum rowOpen := by
  subst hid
  rw [placementsGo_step, hn]
  dsimp only
  rw [if_pos rfl]
  rcases hskip with h | h
  · rw [if_pos h]
  · by_cases hpr : (parseRowRecord rd).toOption = none
    · rw [if_pos hpr]
    · rw [if_neg hpr, if_pos h]

/-- Branch evaluation for `placementsGo`: cell records with no open row. -/
theorem placementsGo_eval_cellclosed (data : List Nat) (st : Option (List String))
    (pos : Nat) (rowNum : Int) (recID : Nat) (rd : List Nat) (p2 : Nat)
    (hn : Record.next data pos = .ok (recID, rd, p2))
    (hid : Biff12.Blank ≤ recID ∧ recID ≤ Biff12.FormulaBoolErr) :
    placementsGo data st pos rowNum false = placementsGo data st p2 rowNum false := by
  rw [placementsGo_step, hn]
  dsimp only
  rw [if_neg (fun h => by rw [h] at hid; exact absurd hid.1 (by decide)), if_pos hid,
      if_neg (by simp)]

/-- Branch evaluation for `placementsGo`: undecodable cell records. -/
theorem placementsGo_eval_cellerr (data : List Nat) (st : Option (List String))
    (pos : Nat) (rowNum : Int) (rowOpen : Bool) (recID : Nat) (rd : List Nat) (p2 : Nat)
    (e : String) (hn : Record.next data pos = .ok (recID, rd, p2))
    (hid : Biff12.Blank ≤ recID ∧ recID ≤ Biff12.FormulaBoolErr)
    (hpc : parseCellRecord rd recID st = .error e) :
    placementsGo data st pos rowNum rowOpen = placementsGo data st p2 rowNum rowOpen := by
  rw [placementsGo_step, hn]
  dsimp only
  rw [if_neg (fun h => by rw [h] at hid; exact absurd hid.1 (by decide)), if_pos hid]
  cases rowOpen with
  | true =>
    rw [if_pos rfl, hpc]
  | false =>
    rw [if_neg (by simp)]

/-- Branch evaluation for `placementsGo`: other record types. -/
theorem placementsGo_eval_other (data : List Nat) (st : Option (List String)) (pos : Nat)
    (rowNum : Int) (rowOpen : Bool) (recID : Nat) (rd : List Nat) (p2 : Nat)
    (hn : Record.next data pos = .ok (recID, rd, p2)) (h1 : ¬ recID = Biff12.Row)
    (h2 : ¬ (Biff12.Blank ≤ recID ∧ recID ≤ Biff12.FormulaBoolErr))
    (h3 : ¬ recID = Biff12.SheetDataEnd) :
    placementsGo data st pos rowNum rowOpen = placementsGo data st p2 rowNum rowOpen := by
  rw [placementsGo_step, hn]
  dsimp only
  rw [if_neg h1, if_neg h2, if_neg h3]

/-- `fillRows` under an unbounded consumer never stops and keeps the
unbounded consumer. -/
theorem fillRows_none (dim : Dimension) :
    ∀ k rn, (fillRows dim k rn none).2 = (none, false) := by
  intro k
  induction k with
  | zero => intro rn; rfl
  | succ k ih =>
    intro rn
    rw [fillRows]
    dsimp only [doYield]
    rw [if_pos rfl]
    dsimp only
    rw [ih]

/-- Branch evaluation: a fresh ROW record under an unbounded consumer, in
either mode: flush, fillers, then recurse with the new row open. -/
theorem rowsGo_eval_row_none (data : List Nat) (st : Option (List String)) (dim : Dimension)
    (sparse : Bool) (pos : Nat) (rowNum : Int) (row : Option (List Cell))
    (recID : Nat) (rd : List Nat) (p2 r0 : Nat)
    (hn : Record.next data pos = .ok (recID, rd, p2)) (hid : recID = Biff12.Row)
    (hr : parseRowRecord rd = .ok r0) (hne : ¬ ((r0 : Nat) : Int) = rowNum) :
    rowsGo data st dim sparse pos rowNum row none =
      (flushAll row ++
        (if sparse = true then []
         else (fillRows dim (((r0 : Nat) : Int) - 1 - rowNum).toNat rowNum none).1) ++
        (rowsGo data st dim sparse p2 r0 (some (makeEmptyRow r0 dim)) none).1,
       (rowsGo data st dim sparse p2 r0 (some (makeEmptyRow r0 dim)) none).2) := by
  subst hid
  rw [rowsGo_step, hn]
  dsimp only
  rw [if_pos rfl, hr]
  dsimp only [Except.toOption, Option.getD]
  rw [if_neg (by simp), if_neg hne,
      show (if row = none then ((true : Bool), (none : Option Nat)) else doYield none) =
        (true, none) from by split <;> rfl]
  dsimp only
  rw [if_pos rfl]
  by_cases hsp : sparse = true
  · subst hsp
    simp only [eq_self_iff_true, if_true, Bool.false_eq_true, if_false]
    try simp
  · rw [Bool.not_eq_true] at hsp
    subst hsp
    simp only [Bool.false_eq_true, if_false]
    rw [show (fillRows dim (((r0 : Nat) : Int) - 1 - rowNum).toNat rowNum none).2.2 = false
          from by rw [fillRows_none],
        show (fillRows dim (((r0 : Nat) : Int) - 1 - rowNum).toNat rowNum none).2.1 = none
          from by rw [fillRows_none]]
    simp

end Worksheet

namespace Worksheet

/-- `makeEmptyRow` rows are all-nil, hence trivially satellite-clean. -/
theorem makeEmptyRow_satrow (merges : List MergeArea) (rn : Int) (dim : Dimension) :
    SatRow merges (makeEmptyRow rn dim) := by
  intro cell hcell M hM hin hanch
  simp [makeEmptyRow] at hcell
  obtain ⟨i, _, h⟩ := hcell
  rw [← h]

/-- Filler rows are all-nil, hence trivially satellite-clean. -/
theorem fillRows_satrow (merges : List MergeArea) (dim : Dimension) :
    ∀ k rn b rc, rc ∈ (fillRows dim k rn b).1 → SatRow merges rc := by
  intro k
  induction k with
  | zero =>
    intro rn b rc hrc
    simp [fillRows] at hrc
  | succ k ih =>
    intro rn b rc hrc
    rw [fillRows] at hrc
    dsimp only at hrc
    by_cases hy : (doYield b).1 = true
    · rw [if_pos hy] at hrc
      rcases List.mem_cons.mp hrc with h | h
      · rw [h]
        exact makeEmptyRow_satrow merges _ dim
      · exact ih _ _ rc h
    · rw [if_neg hy] at hrc
      rcases List.mem_cons.mp hrc with h | h
      · rw [h]
        exact makeEmptyRow_satrow merges _ dim
      · exact absurd h (List.not_mem_nil rc)

/-- The trailing flush only re-delivers the (satellite-clean) open row. -/
theorem flushAll_satrow (merges : List MergeArea) (row : Option (List Cell))
    (hp : ∀ cells, row = some cells → SatRow merges cells) :
    ∀ rc ∈ flushAll row, SatRow merges rc := by
  intro rc hrc
  cases row with
  | none => simp [flushAll] at hrc
  | some cells =>
    simp [flushAll] at hrc
    rw [hrc]
    exact hp cells rfl

/-- Satellite invariant of the row loop under an unbounded consumer: if every
stored placement ahead respects the merge regions and the open row is
satellite-clean, every delivered row is satellite-clean. -/
theorem rowsGo_satnil (data : List Nat) (st : Option (List String)) (dim : Dimension)
    (sparse : Bool) (merges : List MergeArea) :
    ∀ n pos rowNum row, data.length - pos = n →
      (∀ p ∈ placementsGo data st pos rowNum row.isSome, GoodPl merges p) →
      (∀ cells, row = some cells → SatRow merges cells) →
      ∀ rc ∈ (rowsGo data st dim sparse pos rowNum row none).1, SatRow merges rc := by
  intro n
  induction n using Nat.strong_induction_on with
  | _ n ih =>
    intro pos rowNum row hn hpl hrow rc hrc
    cases hnx : Record.next data pos with
    | error e =>
      rw [rowsGo_eval_err data st dim sparse pos rowNum row none e hnx] at hrc
      exact flushAll_satrow merges row hrow rc hrc
    | ok t =>
      obtain ⟨recID, rd, p2⟩ := t
      have hb := Record.next_bounds data pos recID rd p2 hnx
      by_cases hRow : recID = Biff12.Row
      · by_cases hpr : (parseRowRecord rd).toOption = none
        · rw [rowsGo_eval_rowskip data st dim sparse pos rowNum row none recID rd p2 hnx
              hRow (Or.inl hpr)] at hrc
          rw [placementsGo_eval_rowskip data st pos rowNum row.isSome recID rd p2 hnx
              hRow (Or.inl hpr)] at hpl
          exact ih (data.length - p2) (by omega) p2 rowNum row rfl hpl hrow rc hrc
        · by_cases hdup : (((parseRowRecord rd).toOption.getD 0 : Nat) : Int) = rowNum
          · rw [rowsGo_eval_rowskip data st dim sparse pos rowNum row none recID rd p2 hnx
                hRow (Or.inr hdup)] at hrc
            rw [placementsGo_eval_rowskip data st pos rowNum row.isSome recID rd p2 hnx
                hRow (Or.inr hdup)] at hpl
            exact ih (data.length - p2) (by omega) p2 rowNum row rfl hpl hrow rc hrc
          · cases hparse : parseRowRecord rd with
            | error e2 =>
              rw [hparse] at hpr
              simp [Except.toOption] at hpr
            | ok r0 =>
              have hne : ¬ ((r0 : Nat) : Int) = rowNum := by
                rw [hparse] at hdup
                simpa [Except.toOption] using hdup
              rw [rowsGo_eval_row_none data st dim sparse pos rowNum row recID rd p2 r0 hnx
                  hRow hparse hne] at hrc
              rw [placementsGo_eval_row data st pos rowNum row.isSome recID rd p2 r0 hnx
                  hRow hparse hne] at hpl
              dsimp only at hrc
              rcases List.mem_append.mp hrc with h12 | hrest
              · rcases List.mem_append.mp h12 with hfl | hfil
                · exact flushAll_satrow merges row hrow rc hfl
                · by_cases hsp : sparse = true
                  · rw [if_pos hsp] at hfil
                    exact absurd hfil (List.not_mem_nil rc)
                  · rw [if_neg hsp] at hfil
                    exact fillRows_satrow merges dim _ _ _ rc hfil
              · exact ih (data.length - p2) (by omega) p2 ((r0 : Nat) : Int)
                  (some (makeEmptyRow r0 dim)) rfl hpl
                  (fun cells hc => by
                    injection hc with h2
                    rw [← h2]
                    exact makeEmptyRow_satrow merges _ dim) rc hrest
      · by_cases hCell : Biff12.Blank ≤ recID ∧ recID ≤ Biff12.FormulaBoolErr
        · rw [rowsGo_eval_cell data st dim sparse pos rowNum row none recID rd p2 hnx hCell]
            at hrc
          cases row with
          | none =>
            simp only [updateRow] at hrc
            rw [show (none : Option (List Cell)).isSome = false from rfl] at hpl
            rw [placementsGo_eval_cellclosed data st pos rowNum recID rd p2 hnx hCell] at hpl
            exact ih (data.length - p2) (by omega) p2 rowNum none rfl hpl
              (fun cells hc => by simp at hc) rc hrc
          | some cells =>
            rw [show (some cells).isSome = true from rfl] at hpl
            cases hpc : parseCellRecord rd recID st with
            | error e2 =>
              simp only [updateRow, hpc] at hrc
              rw [placementsGo_eval_cellerr data st pos rowNum true recID rd p2 e2 hnx
                  hCell hpc] at hpl
              exact ih (data.length - p2) (by omega) p2 rowNum (some cells) rfl hpl hrow rc hrc
            | ok c =>
              simp only [updateRow, hpc] at hrc
              rw [placementsGo_eval_cell data st pos rowNum recID rd p2 c hnx hCell hpc] at hpl
              have hplt : ∀ p ∈ placementsGo data st p2 rowNum true, GoodPl merges p :=
                fun p hp => hpl p (List.mem_cons_of_mem _ hp)
              have hgoodc : GoodPl merges (rowNum, c.C, c.V) := hpl _ (List.mem_cons_self _ _)
              by_cases hlt : c.C < cells.length
              · rw [if_pos hlt] at hrc
                refine ih (data.length - p2) (by omega) p2 rowNum
                  (some (cells.set c.C ⟨rowNum, c.C, c.V, c.Style⟩)) rfl hplt ?_ rc hrc
                intro cells2 hc2
                injection hc2 with h2
                rw [← h2]
                intro cell hcell M hM hin hanch
                rcases List.mem_or_eq_of_mem_set hcell with h | h
                · exact hrow cells rfl cell h M hM hin hanch
                · subst h
                  exact absurd (hgoodc M hM hin).1 hanch
              · rw [if_neg hlt] at hrc
                exact ih (data.length - p2) (by omega) p2 rowNum (some cells) rfl hplt hrow
                  rc hrc
        · by_cases hEnd : recID = Biff12.SheetDataEnd
          · rw [rowsGo_eval_end data st dim sparse pos rowNum row none recID rd p2 hnx hEnd]
              at hrc
            exact flushAll_satrow merges row hrow rc hrc
          · rw [rowsGo_eval_other data st dim sparse pos rowNum row none recID rd p2 hnx
                hRow hCell hEnd] at hrc
            rw [placementsGo_eval_other data st pos rowNum row.isSome recID rd p2 hnx
                hRow hCell hEnd] at hpl
            exact ih (data.length - p2) (by omega) p2 rowNum row rfl hpl hrow rc hrc

end Worksheet

namespace Worksheet

/-- The open row buffer carries the anchor value of `M` at index `M.C`. -/
def GoodBuf (M : MergeArea) (cells : List Cell) : Prop :=
  ∃ hj : M.C < cells.length, (cells.get ⟨M.C, hj⟩).R = (M.R : Int) ∧
    (cells.get ⟨M.C, hj⟩).C = M.C ∧ (cells.get ⟨M.C, hj⟩).V ≠ CellVal.nil

/-- Anchor-delivery invariant of the row loop under an unbounded consumer:
if the anchor value of `M` is still ahead in the stored placements, or
already sits in the open row buffer, then some delivered row carries it. -/
theorem rowsGo_anchor (data : List Nat) (st : Option (List String)) (dim : Dimension)
    (sparse : Bool) (merges : List MergeArea) (M : MergeArea) (hMm : M ∈ merges)
    (hH : 1 ≤ M.H) (hW : 1 ≤ M.W) (hC : M.C < rowWidth dim) :
    ∀ n pos rowNum row, data.length - pos = n →
      (∀ p ∈ placementsGo data st pos rowNum row.isSome, GoodPl merges p) →
      (∀ cells, row = some cells → cells.length = rowWidth dim) →
      ((∃ v, ((M.R : Int), M.C, v) ∈ placementsGo data st pos rowNum row.isSome ∧
          v ≠ CellVal.nil) ∨
        (∃ cells, row = some cells ∧ rowNum = (M.R : Int) ∧ GoodBuf M cells)) →
      anchorYielded (rowsGo data st dim sparse pos rowNum row none).1 M := by
  intro n
  induction n using Nat.strong_induction_on with
  | _ n ih =>
    intro pos rowNum row hn hpl hlen hdisj
    cases hnx : Record.next data pos with
    | error e =>
      rw [rowsGo_eval_err data st dim sparse pos rowNum row none e hnx]
      rcases hdisj with ⟨v, hv, _⟩ | ⟨cells, hcells, _, hj, hR, hCeq, hV⟩
      · rw [placementsGo_eval_err data st pos rowNum row.isSome e hnx] at hv
        exact absurd hv (List.not_mem_nil _)
      · subst hcells
        exact ⟨cells, by simp [flushAll], cells.get ⟨M.C, hj⟩, List.get_mem _ _ _, hR, hCeq, hV⟩
    | ok t =>
      obtain ⟨recID, rd, p2⟩ := t
      have hb := Record.next_bounds data pos recID rd p2 hnx
      by_cases hRow : recID = Biff12.Row
      · by_cases hpr : (parseRowRecord rd).toOption = none
        · rw [rowsGo_eval_rowskip data st dim sparse pos rowNum row none recID rd p2 hnx
              hRow (Or.inl hpr)]
          rw [placementsGo_eval_rowskip data st pos rowNum row.isSome recID rd p2 hnx
              hRow (Or.inl hpr)] at hpl hdisj
          exact ih (data.length - p2) (by omega) p2 rowNum row rfl hpl hlen hdisj
        · by_cases hdup : (((parseRowRecord rd).toOption.getD 0 : Nat) : Int) = rowNum
          · rw [rowsGo_eval_rowskip data st dim sparse pos rowNum row none recID rd p2 hnx
                hRow (Or.inr hdup)]
            rw [placementsGo_eval_rowskip data st pos rowNum row.isSome recID rd p2 hnx
                hRow (Or.inr hdup)] at hpl hdisj
            exact ih (data.length - p2) (by omega) p2 rowNum row rfl hpl hlen hdisj
          · cases hparse : parseRowRecord rd with
            | error e2 =>
              rw [hparse] at hpr
              simp [Except.toOption] at hpr
            | ok r0 =>
              have hne : ¬ ((r0 : Nat) : Int) = rowNum := by
                rw [hparse] at hdup
                simpa [Except.toOption] using hdup
              rw [rowsGo_eval_row_none data st dim sparse pos rowNum row recID rd p2 r0 hnx
                  hRow hparse hne]
              rw [placementsGo_eval_row data st pos rowNum row.isSome recID rd p2 r0 hnx
                  hRow hparse hne] at hpl hdisj
              dsimp only
              rcases hdisj with hleft | ⟨cells, hcells, _, hj, hR, hCeq, hV⟩
              · have hrest := ih (data.length - p2) (by omega) p2 ((r0 : Nat) : Int)
                  (some (makeEmptyRow r0 dim)) rfl hpl
                  (fun cells hc => by
                    injection hc with h2
                    rw [← h2]
                    exact makeEmptyRow_length _ dim)
                  (Or.inl hleft)
                obtain ⟨rc, hrc, cell, hcell, hprops⟩ := hrest
                exact ⟨rc, List.mem_append_right _ hrc, cell, hcell, hprops⟩
              · subst hcells
                refine ⟨cells, ?_, cells.get ⟨M.C, hj⟩, List.get_mem _ _ _, hR, hCeq, hV⟩
                exact List.mem_append_left _ (List.mem_append_left _ (by simp [flushAll]))
      · by_cases hCell : Biff12.Blank ≤ recID ∧ recID ≤ Biff12.FormulaBoolErr
        · rw [rowsGo_eval_cell data st dim sparse pos rowNum row none recID rd p2 hnx hCell]
          cases row with
          | none =>
            simp only [updateRow]
            rw [show (none : Option (List Cell)).isSome = false from rfl] at hpl hdisj
            rw [placementsGo_eval_cellclosed data st pos rowNum recID rd p2 hnx hCell]
              at hpl hdisj
            refine ih (data.length - p2) (by omega) p2 rowNum none rfl hpl
              (fun cells hc => by simp at hc) ?_
            rcases hdisj with hleft | ⟨cells, hcells, _⟩
            · exact Or.inl hleft
            · exact absurd hcells (by simp)
          | some cells =>
            rw [show (some cells).isSome = true from rfl] at hpl hdisj
            cases hpc : parseCellRecord rd recID st with
            | error e2 =>
              simp only [updateRow, hpc]
              rw [placementsGo_eval_cellerr data st pos rowNum true recID rd p2 e2 hnx
                  hCell hpc] at hpl hdisj
              exact ih (data.length - p2) (by omega) p2 rowNum (some cells) rfl hpl hlen hdisj
            | ok c =>
              simp only [updateRow, hpc]
              rw [placementsGo_eval_cell data st pos rowNum recID rd p2 c hnx hCell hpc]
                at hpl hdisj
              have hplt : ∀ p ∈ placementsGo data st p2 rowNum true, GoodPl merges p :=
                fun p hp => hpl p (List.mem_cons_of_mem _ hp)
              have hclen : cells.length = rowWidth dim := hlen cells rfl
              rcases hdisj with ⟨v, hv, hvnil⟩ | ⟨cells1, hcells1, hrn, hj0, hR0, hCeq0, hV0⟩
              · rcases List.mem_cons.mp hv with hhead | htail
                · -- the anchor placement is this very record
                  injection hhead with h1a h23
                  injection h23 with h2a h3a
                  have h1 : rowNum = (M.R : Int) := h1a.symm
                  have h2 : c.C = M.C := h2a.symm
                  have h3 : c.V = v := h3a.symm
                  have hltc : c.C < cells.length := by rw [h2, hclen]; exact hC
                  rw [if_pos hltc]
                  refine ih (data.length - p2) (by omega) p2 rowNum
                    (some (cells.set c.C ⟨rowNum, c.C, c.V, c.Style⟩)) rfl hplt
                    (fun cells2 hc2 => by
                      injection hc2 with hc3
                      rw [← hc3, List.length_set]
                      exact hclen) ?_
                  refine Or.inr ⟨_, rfl, h1, ?_⟩
                  refine ⟨by rw [List.length_set, hclen]; exact hC, ?_⟩
                  have hget : ((cells.set c.C ⟨rowNum, c.C, c.V, c.Style⟩).get
                      ⟨M.C, by rw [List.length_set, hclen]; exact hC⟩) =
                      ⟨rowNum, c.C, c.V, c.Style⟩ := by
                    rw [List.get_eq_getElem, List.getElem_set, if_pos h2]
                  rw [hget]
                  refine ⟨h1, h2, ?_⟩
                  rw [h3]
                  exact hvnil
                · -- the anchor placement is further ahead
                  by_cases hlt : c.C < cells.length
                  · rw [if_pos hlt]
                    exact ih (data.length - p2) (by omega) p2 rowNum
                      (some (cells.set c.C ⟨rowNum, c.C, c.V, c.Style⟩)) rfl hplt
                      (fun cells2 hc2 => by
                        injection hc2 with hc3
                        rw [← hc3, List.length_set]
                        exact hclen)
                      (Or.inl ⟨v, htail, hvnil⟩)
                  · rw [if_neg hlt]
                    exact ih (data.length - p2) (by omega) p2 rowNum (some cells) rfl hplt
                      hlen (Or.inl ⟨v, htail, hvnil⟩)
              · -- the buffer already carries the anchor value
                injection hcells1 with hc0
                subst hc0
                by_cases hlt : c.C < cells.length
                · rw [if_pos hlt]
                  refine ih (data.length - p2) (by omega) p2 rowNum
                    (some (cells.set c.C ⟨rowNum, c.C, c.V, c.Style⟩)) rfl hplt
                    (fun cells2 hc2 => by
                      injection hc2 with hc3
                      rw [← hc3, List.length_set]
                      exact hlen cells rfl) ?_
                  refine Or.inr ⟨_, rfl, hrn, ?_⟩
                  by_cases hcc : c.C = M.C
                  · -- overwrite at the anchor: the new value must be non-nil
                    have hinr : inRegion M rowNum c.C := by
                      rw [hrn, hcc]
                      exact ⟨le_refl _, by omega, le_refl _, by omega⟩
                    have hgood := hpl _ (List.mem_cons_self _ _) M hMm hinr
                    refine ⟨by rw [List.length_set, ← hcc]; exact hlt, ?_⟩
                    have hget : ((cells.set c.C ⟨rowNum, c.C, c.V, c.Style⟩).get
                        ⟨M.C, by rw [List.length_set, ← hcc]; exact hlt⟩) =
                        ⟨rowNum, c.C, c.V, c.Style⟩ := by
                      rw [List.get_eq_getElem, List.getElem_set, if_pos hcc]
                    rw [hget]
                    exact ⟨hrn, hcc, hgood.2⟩
                  · -- overwrite elsewhere: index M.C untouched
                    refine ⟨by rw [List.length_set]; exact hj0, ?_⟩
                    have hget : ((cells.set c.C ⟨rowNum, c.C, c.V, c.Style⟩).get
                        ⟨M.C, by rw [List.length_set]; exact hj0⟩) =
                        cells.get ⟨M.C, hj0⟩ := by
                      simp only [List.get_eq_getElem, List.getElem_set]
                      rw [if_neg hcc]
                    rw [hget]
                    exact ⟨hR0, hCeq0, hV0⟩
                · rw [if_neg hlt]
                  exact ih (data.length - p2) (by omega) p2 rowNum (some cells) rfl hplt
                    hlen (Or.inr ⟨cells, rfl, hrn, hj0, hR0, hCeq0, hV0⟩)
        · by_cases hEnd : recID = Biff12.SheetDataEnd
          · rw [rowsGo_eval_end data st dim sparse pos rowNum row none recID rd p2 hnx hEnd]
            rcases hdisj with ⟨v, hv, _⟩ | ⟨cells, hcells, _, hj, hR, hCeq, hV⟩
            · rw [placementsGo_eval_end data st pos rowNum row.isSome recID rd p2 hnx hEnd]
                at hv
              exact absurd hv (List.not_mem_nil _)
            · subst hcells
              exact ⟨cells, by simp [flushAll], cells.get ⟨M.C, hj⟩, List.get_mem _ _ _,
                hR, hCeq, hV⟩
          · rw [rowsGo_eval_other data st dim sparse pos rowNum row none recID rd p2 hnx
                hRow hCell hEnd]
            rw [placementsGo_eval_other data st pos rowNum row.isSome recID rd p2 hnx
                hRow hCell hEnd] at hpl hdisj
            exact ih (data.length - p2) (by omega) p2 rowNum row rfl hpl hlen hdisj

end Worksheet

namespace Worksheet

/-- C3 (amended): for a worksheet with row data whose stored placements
respect the merge regions (values inside a region only at its anchor, and an
anchor value present for every region), and whose regions' anchor columns
additionally lie inside the effective row width, uninterrupted row iteration
yields non-empty values exactly at the anchors: every non-anchor coordinate
inside a region comes out nil, and each region's anchor is delivered
non-empty.  The width condition is the amendment: without it the cell write
is silently discarded (see the counterexample). -/
theorem rows_merge_anchor_spec (ws : WS) (sparse : Bool) (merges : List MergeArea)
    (hsd : ws.hasSheetData = true)
    (hHW : ∀ M ∈ merges, 1 ≤ M.H ∧ 1 ≤ M.W)
    (h1 : ∀ p ∈ placementsGo ws.data ws.stringTable ws.dataOffset (-1) false,
      GoodPl merges p)
    (h2 : ∀ M ∈ merges, ∃ v, ((M.R : Int), M.C, v) ∈
      placementsGo ws.data ws.stringTable ws.dataOffset (-1) false ∧ v ≠ CellVal.nil)
    (h3 : ∀ M ∈ merges, M.C < rowWidth (effectiveDim ws.dimension)) :
    satellitesNil (rowsRun ws sparse none).1 merges ∧
    ∀ M ∈ merges, anchorYielded (rowsRun ws sparse none).1 M := by
  have hrun : (rowsRun ws sparse none).1 =
      (rowsGo ws.data ws.stringTable (effectiveDim ws.dimension) sparse ws.dataOffset (-1)
        none none).1 := by
    rw [rowsRun, if_neg (by rw [hsd]; simp)]
  constructor
  · rw [hrun]
    exact fun rc hrc => rowsGo_satnil ws.data ws.stringTable (effectiveDim ws.dimension)
      sparse merges _ ws.dataOffset (-1) none rfl h1 (fun cells hc => by simp at hc) rc hrc
  · intro M hM
    rw [hrun]
    exact rowsGo_anchor ws.data ws.stringTable (effectiveDim ws.dimension) sparse merges M
      hM (hHW M hM).1 (hHW M hM).2 (h3 M hM) _ ws.dataOffset (-1) none rfl h1
      (fun cells hc => by simp at hc) (Or.inl (h2 M hM))

end Worksheet

namespace Worksheet

/-- Counterexample stream: DIMENSION (0,0)–(0,0) (one column), SHEETDATA,
ROW 0, a FLOAT cell at column 5 (value 1.0), SHEETDATAEND, and a MERGECELL
record for rows 0–0, columns 5–6. -/
def cexData : List Nat :=
  [0x94, 0x01, 16, 0, 0, 0, 0, 0, 0, 0, 0, 0, 0, 0, 0, 0, 0, 0, 0,
   0x91, 0x01, 0,
   0x00, 0x04, 0, 0, 0, 0,
   0x05, 16, 5, 0, 0, 0, 0, 0, 0, 0, 0, 0, 0, 0, 0, 0, 240, 63,
   0x92, 0x01, 0,
   0xB0, 0x01, 16, 0, 0, 0, 0, 0, 0, 0, 0, 5, 0, 0, 0, 6, 0, 0, 0]

/-- The pass-1 result for `cexData`. -/
def cexMeta : Meta := ⟨some ⟨0, 0, 1, 1⟩, [], 22, true, [⟨0, 5, 1, 2⟩], []⟩

/-- The same stream with a seven-column DIMENSION ((0,0)–(0,6)), so the
merge anchor column 5 lies inside the row width. -/
def cexData2 : List Nat :=
  [0x94, 0x01, 16, 0, 0, 0, 0, 0, 0, 0, 0, 0, 0, 0, 0, 6, 0, 0, 0,
   0x91, 0x01, 0,
   0x00, 0x04, 0, 0, 0, 0,
   0x05, 16, 5, 0, 0, 0, 0, 0, 0, 0, 0, 0, 0, 0, 0, 0, 240, 63,
   0x92, 0x01, 0,
   0xB0, 0x01, 16, 0, 0, 0, 0, 0, 0, 0, 0, 5, 0, 0, 0, 6, 0, 0, 0]

/-- The skip loop over `cexData`'s SheetData block ends after SHEETDATAEND. -/
theorem cex_skip : skipSheetData cexData 22 = .ok 49 := by
  rw [skipSheetData_eval_other cexData 22 0 [0, 0, 0, 0] 28 (by rfl) (by decide)]
  rw [skipSheetData_eval_other cexData 28 5
      [5, 0, 0, 0, 0, 0, 0, 0, 0, 0, 0, 0, 0, 0, 240, 63] 46 (by rfl) (by decide)]
  rw [skipSheetData_eval_end cexData 46 402 [] 49 (by rfl) (by rfl)]

/-- `cexData` pre-scans to `cexMeta`. -/
theorem cex_parse : parse cexData false = .ok cexMeta := by
  rw [show parse cexData false = parseGo cexData false 0 initMeta from rfl]
  rw [parseGo_eval_dim cexData false 0 initMeta 404
      [0, 0, 0, 0, 0, 0, 0, 0, 0, 0, 0, 0, 0, 0, 0, 0] 19 ⟨0, 0, 1, 1⟩
      (by rfl) (by rfl) (by rfl)]
  rw [parseGo_eval_sheetdata cexData false 19 _ 401 [] 22 49 (by rfl) (by rfl) cex_skip]
  rw [parseGo_eval_merge cexData false 49 _ 432
      [0, 0, 0, 0, 0, 0, 0, 0, 5, 0, 0, 0, 6, 0, 0, 0] 68 ⟨0, 5, 1, 2⟩
      (by rfl) (by rfl) (by rfl)]
  rw [parseGo_eval_eof cexData false 68 _ (by rfl)]
  rfl

/-- The only stored placement of `cexData` is the merge anchor (0,5). -/
theorem cex_placements :
    placementsGo cexData none 22 (-1) false =
      [((0 : Int), 5, CellVal.float 4607182418800017408)] := by
  rw [placementsGo_eval_row cexData none 22 (-1) false 0 [0, 0, 0, 0] 28 0 (by rfl) (by rfl)
      (by rfl) (by decide)]
  simp only [Nat.cast_zero]
  rw [placementsGo_eval_cell cexData none 28 0 5
      [5, 0, 0, 0, 0, 0, 0, 0, 0, 0, 0, 0, 0, 0, 240, 63] 46
      ⟨5, CellVal.float 4607182418800017408, 0⟩ (by rfl) (by decide) (by rfl)]
  rw [placementsGo_eval_end cexData none 46 0 true 402 [] 49 (by rfl) (by rfl)]

/-- The only stored placement of `cexData2` is the merge anchor (0,5). -/
theorem cex2_placements :
    placementsGo cexData2 none 22 (-1) false =
      [((0 : Int), 5, CellVal.float 4607182418800017408)] := by
  rw [placementsGo_eval_row cexData2 none 22 (-1) false 0 [0, 0, 0, 0] 28 0 (by rfl) (by rfl)
      (by rfl) (by decide)]
  simp only [Nat.cast_zero]
  rw [placementsGo_eval_cell cexData2 none 28 0 5
      [5, 0, 0, 0, 0, 0, 0, 0, 0, 0, 0, 0, 0, 0, 240, 63] 46
      ⟨5, CellVal.float 4607182418800017408, 0⟩ (by rfl) (by decide) (by rfl)]
  rw [placementsGo_eval_end cexData2 none 46 0 true 402 [] 49 (by rfl) (by rfl)]

/-- Iterating `cexData`'s rows yields a single all-nil 1-cell row: the
anchor write at column 5 was discarded by the width guard. -/
theorem cex_rows :
    (rowsRun ⟨cexData, 22, true, some ⟨0, 0, 1, 1⟩, none, none⟩ true none).1 =
      [[⟨0, 0, CellVal.nil, 0⟩]] := by
  rw [rowsRun]
  rw [if_neg (by simp)]
  dsimp only
  rw [rowsGo_eval_row_sparse cexData none (effectiveDim (some ⟨0, 0, 1, 1⟩)) 22 (-1) none 0
      [0, 0, 0, 0] 28 0 (by rfl) rfl (by rfl) (by decide)]
  simp only [Nat.cast_zero]
  rw [rowsGo_eval_cell cexData none (effectiveDim (some ⟨0, 0, 1, 1⟩)) true 28 0
      (some (makeEmptyRow 0 (effectiveDim (some ⟨0, 0, 1, 1⟩)))) none 5
      [5, 0, 0, 0, 0, 0, 0, 0, 0, 0, 0, 0, 0, 0, 240, 63] 46 (by rfl) (by decide)]
  rw [rowsGo_eval_end cexData none (effectiveDim (some ⟨0, 0, 1, 1⟩)) true 46 0
      (updateRow (some (makeEmptyRow 0 (effectiveDim (some ⟨0, 0, 1, 1⟩))))
        [5, 0, 0, 0, 0, 0, 0, 0, 0, 0, 0, 0, 0, 0, 240, 63] 5 none 0) none 402 [] 49
      (by rfl) (by rfl)]
  rfl

/-- C3 counterexample: `cexData` decodes to a worksheet whose stream stores
exactly one value record, at the anchor (0,5) of the merge region rows 0–0 /
columns 5–6 — the claim's hypothesis holds — yet row iteration yields no
non-empty cell at the anchor, because the anchor column lies outside the
1-column DIMENSION and the cell write is silently discarded.  The claim as
stated (without a width-compatibility condition) is therefore false. -/
theorem merge_anchor_not_yielded_counterexample :
    parse cexData false = .ok cexMeta ∧
    placementsGo cexData none 22 (-1) false =
      [((0 : Int), 5, CellVal.float 4607182418800017408)] ∧
    GoodPl cexMeta.mergeCells ((0 : Int), 5, CellVal.float 4607182418800017408) ∧
    (rowsRun ⟨cexData, 22, true, some ⟨0, 0, 1, 1⟩, none, none⟩ true none).1 =
      [[⟨0, 0, CellVal.nil, 0⟩]] ∧
    ¬ anchorYielded
        (rowsRun ⟨cexData, 22, true, some ⟨0, 0, 1, 1⟩, none, none⟩ true none).1
        ⟨0, 5, 1, 2⟩ :=
  ⟨cex_parse, cex_placements, by decide, cex_rows, by rw [cex_rows]; decide⟩

/-- C3 witness: with the seven-column DIMENSION of `cexData2` the amended
hypotheses hold, and the anchor (0,5) of the region rows 0–0 / columns 5–6
is delivered non-empty while all its satellite coordinates stay nil. -/
theorem rows_merge_anchor_spec_witness :
    satellitesNil (rowsRun ⟨cexData2, 22, true, some ⟨0, 0, 1, 7⟩, none, none⟩ true none).1
        [⟨0, 5, 1, 2⟩] ∧
    anchorYielded (rowsRun ⟨cexData2, 22, true, some ⟨0, 0, 1, 7⟩, none, none⟩ true none).1
        ⟨0, 5, 1, 2⟩ := by
  have h := rows_merge_anchor_spec ⟨cexData2, 22, true, some ⟨0, 0, 1, 7⟩, none, none⟩ true
    [⟨0, 5, 1, 2⟩] rfl (by decide)
    (by
      intro p hp
      have hp2 : p ∈ [((0 : Int), 5, CellVal.float 4607182418800017408)] := by
        rw [← cex2_placements]
        exact hp
      simp at hp2
      rw [hp2]
      decide)
    (by
      intro M hM
      simp at hM
      subst hM
      refine ⟨CellVal.float 4607182418800017408, ?_, by decide⟩
      show ((0 : Int), 5, CellVal.float 4607182418800017408) ∈
        placementsGo cexData2 none 22 (-1) false
      rw [cex2_placements]
      simp)
    (by decide)
  exact ⟨h.1, h.2 ⟨0, 5, 1, 2⟩ (by simp)⟩

end Worksheet
